import Mathlib

/-!
Verification of the KK_Archive document-processing core.

The definitions below are a shallow embedding, in Lean, of the Python code in
`kk_processor/document_processor.py` and `kk_processor/prompts_manager.py`.

Modelling conventions:
* Network interaction (`requests.post`, streaming `iter_lines`) is passed in as
  an explicit oracle argument: a transport failure or a successful payload is a
  value of an `Except`/`Option` type, so the data-handling logic of the source
  is embedded exactly while the wire itself stays abstract.
* `json.loads` plus the dictionary-shape checks of the streaming loop are
  modelled by a `parse` oracle returning `Option StreamFrame`; `none` stands
  for a `json.JSONDecodeError`/`KeyError` on that line.
* Python strings are Lean `String`s; `len` is the number of code points in both
  languages.  `str.strip()` and the `\s` character class are modelled over the
  ASCII whitespace characters (the unicode-only whitespace code points do not
  occur in the texts this pipeline handles).  All string primitives are
  re-implemented structurally over `String.data` so that every definition
  evaluates inside the kernel.
* Python exceptions are modelled with `Except`: a function that catches all
  exceptions and returns a sentinel has a plain return type.
-/

/-! ## String primitives -/

/-- Python whitespace (`str.strip`, regex `\s`), ASCII range: space, tab,
newline, carriage return, vertical tab, form feed. -/
def pyIsSpace (c : Char) : Bool :=
  c = ' ' || c = '\t' || c = '\n' || c = '\r' || c = '\x0b' || c = '\x0c'

/-- List-level test that `w` begins the list `s` (Python `startswith`). -/
def leadsWith : List Char → List Char → Bool
  | [], _ => true
  | _ :: _, [] => false
  | c :: cs, d :: ds => c = d && leadsWith cs ds

/-- Python `s.startswith(w)`. -/
def strStarts (s w : String) : Bool := leadsWith w.data s.data

/-- Python `s.strip()`: drop whitespace from both ends. -/
def pyStrip (s : String) : String :=
  List.asString (((s.data.dropWhile pyIsSpace).reverse.dropWhile pyIsSpace).reverse)

/-- Python `s[n:]` (drop the first `n` code points). -/
def strDrop (s : String) (n : Nat) : String := List.asString (s.data.drop n)

/-- Python `len(s)` (number of code points). -/
def strLen (s : String) : Nat := s.data.length

/-! ## Streaming translation engine (`document_processor.py`) -/

/-- One element of the `choices` array of a streamed chunk, keeping the two
fields the loop reads: `finish_reason` (`none` models JSON null or an absent
key) and `delta.content` (`none` models an absent `delta`/`content` key or a
null content). -/
structure StreamChoice where
  finish_reason : Option String
  delta_content : Option String
deriving DecidableEq, Repr

/-- The JSON object carried by one `data: ` line; `choices = []` also models a
payload without a `choices` key (both are skipped identically by the loop). -/
structure StreamFrame where
  choices : List StreamChoice
deriving DecidableEq, Repr

/-- Drop a leading run of whitespace: the `\s*` tail of the cleaning regexes. -/
def dropWsLead (s : String) : String := List.asString (s.data.dropWhile pyIsSpace)

/-- Optional single full-width or ASCII colon: the `[：:]?` part of the
cleaning regexes. -/
def stripColonOpt (s : String) : String :=
  if strStarts s ("：") then strDrop s 1
  else if strStarts s (":") then strDrop s 1
  else s

/-- One `re.sub(r'^WORD[：:]?\s*', '', s)` step of `_clean_translation_result`:
if `s` starts with the filler word, remove it together with an optional colon
and following whitespace, otherwise return `s` unchanged. -/
def stripFiller (w : String) (s : String) : String :=
  if strStarts s w then dropWsLead (stripColonOpt (strDrop s (strLen w))) else s

/-- `DocumentProcessor._clean_translation_result`: strip the three leading
filler phrases (each pass works on the stripped text, as in the source) and
trim the final result. -/
def clean_translation_result (text : String) : String :=
  let t := stripFiller ("翻译") (pyStrip text)
  let t := stripFiller ("以下是翻译") (pyStrip t)
  let t := stripFiller ("译文") (pyStrip t)
  pyStrip t

/-- The streaming read loop of `_translate_with_streaming_api` (lines 172-223
of the source): consume the decoded lines in order, accumulating the list of
delta fragments (`translated_parts`) and the running character count
(`received_chars`). Progress-bar updates are pure side effects and are not
modelled. -/
def process_stream_lines (parse : String → Option StreamFrame) :
    List String → List String → Nat → List String × Nat
  | [], parts, n => (parts, n)
  | line :: rest, parts, n =>
    if line = "" then process_stream_lines parse rest parts n
    else if pyStrip line = "" then process_stream_lines parse rest parts n
    else if pyStrip line = "data: [DONE]" then (parts, n)
    else if strStarts (pyStrip line) ("data: ") then
      match parse (strDrop (pyStrip line) 6) with
      | none => process_stream_lines parse rest parts n
      | some f =>
        match f.choices with
        | [] => process_stream_lines parse rest parts n
        | choice :: _ =>
          if choice.finish_reason.isSome then (parts, n)
          else
            match choice.delta_content with
            | some content =>
              if content = "" then process_stream_lines parse rest parts n
              else process_stream_lines parse rest (parts ++ [content]) (n + strLen content)
            | none => process_stream_lines parse rest parts n
    else process_stream_lines parse rest parts n

/-- `DocumentProcessor._fallback_translate_text`: issue the non-streaming
request with the same prompt pair; on success clean and return the content, on
any failure return the literal failure marker embedding the input text.  The
second component counts that this fallback call happened (used to state the
exactly-once property).  `fb` is the transport oracle for the non-streaming
request, applied to the same `prompt` and `system_prompt` that the caller
passes, mirroring the identical payload of the source. -/
def fallback_translate_text (fb : String → String → Except Unit String)
    (text prompt system_prompt : String) : String × Nat :=
  match fb prompt system_prompt with
  | .ok content => (clean_translation_result content, 1)
  | .error _ => ("[翻译失败] " ++ text, 1)

/-- `DocumentProcessor._translate_with_streaming_api`: on any transport-level
failure (`streamRes = .error`) run the fallback; otherwise accumulate the
streamed fragments, and if the joined text is empty after stripping, run the
fallback; otherwise clean and return.  The `Nat` component counts fallback
invocations. -/
def translate_with_streaming_api (parse : String → Option StreamFrame)
    (streamRes : Except Unit (List String)) (fb : String → String → Except Unit String)
    (text prompt system_prompt : String) : String × Nat :=
  match streamRes with
  | .error _ => fallback_translate_text fb text prompt system_prompt
  | .ok ls =>
    if pyStrip (String.join (process_stream_lines parse ls [] 0).1) = "" then
      fallback_translate_text fb text prompt system_prompt
    else (clean_translation_result (String.join (process_stream_lines parse ls [] 0).1), 0)

/-- `DocumentProcessor.translate_text`: empty input short-circuits to `""`; a
failure while rendering the prompt templates (`tmpl = .error`) returns the
failure marker; otherwise the streaming path runs with the rendered prompt and
system prompt. -/
def translate_text (parse : String → Option StreamFrame)
    (streamRes : Except Unit (List String)) (fb : String → String → Except Unit String)
    (tmpl : Except Unit (String × String)) (text : String) : String × Nat :=
  if pyStrip text = "" then ("", 0)
  else
    match tmpl with
    | .error _ => ("[翻译失败] " ++ text, 0)
    | .ok ps => translate_with_streaming_api parse streamRes fb text ps.1 ps.2

/-- Frame carrying one delta fragment and no finish reason. -/
def demo_frame (s : String) : StreamFrame := ⟨[⟨none, some s⟩]⟩

/-- Concrete decode oracle for the end-to-end streaming scenario: the two JSON
bodies of scenario B decode to their delta frames, everything else fails. -/
def demo_parse : String → Option StreamFrame := fun s =>
  if s = ("\x7b\"choices\":[\x7b\"delta\":\x7b\"content\":\"He\"\x7d\x7d]\x7d") then
    some (demo_frame ("He"))
  else if s = ("\x7b\"choices\":[\x7b\"delta\":\x7b\"content\":\"llo\"\x7d\x7d]\x7d") then
    some (demo_frame ("llo"))
  else none

/-- The three streamed lines of scenario B. -/
def demo_lines : List String :=
  ["data: \x7b\"choices\":[\x7b\"delta\":\x7b\"content\":\"He\"\x7d\x7d]\x7d",
   "data: \x7b\"choices\":[\x7b\"delta\":\x7b\"content\":\"llo\"\x7d\x7d]\x7d",
   "data: [DONE]"]

/-- C1: in the streaming loop, blank lines are ignored; a line equal to the
sentinel `data: [DONE]` terminates the loop; a `data: `-prefixed line that
fails to decode is skipped without aborting; a decoded frame with a non-null
finish reason terminates the loop; a delta fragment is appended to the buffer
in arrival order with the character count growing by exactly its length (an
empty fragment is a no-op, growing the count by its length 0); and on the
frames carrying `He` then `llo` followed by the sentinel the accumulated,
cleaned result is `Hello`. -/
theorem streaming_loop_behavior :
    (∀ (parse : String → Option StreamFrame) rest parts n (line : String),
      pyStrip line = "" →
      process_stream_lines parse (line :: rest) parts n =
        process_stream_lines parse rest parts n) ∧
    (∀ (parse : String → Option StreamFrame) rest parts n (line : String),
      pyStrip line = "data: [DONE]" →
      process_stream_lines parse (line :: rest) parts n = (parts, n)) ∧
    (∀ (parse : String → Option StreamFrame) rest parts n (line : String),
      strStarts (pyStrip line) ("data: ") = true → pyStrip line ≠ "data: [DONE]" →
      parse (strDrop (pyStrip line) 6) = none →
      process_stream_lines parse (line :: rest) parts n =
        process_stream_lines parse rest parts n) ∧
    (∀ (parse : String → Option StreamFrame) rest parts n (line : String) f r tl,
      strStarts (pyStrip line) ("data: ") = true → pyStrip line ≠ "data: [DONE]" →
      parse (strDrop (pyStrip line) 6) = some f → f.choices = ⟨some r, tl⟩ :: [] →
      process_stream_lines parse (line :: rest) parts n = (parts, n)) ∧
    (∀ (parse : String → Option StreamFrame) rest parts n (line : String) f content,
      strStarts (pyStrip line) ("data: ") = true → pyStrip line ≠ "data: [DONE]" →
      parse (strDrop (pyStrip line) 6) = some f → f.choices = ⟨none, some content⟩ :: [] →
      content ≠ "" →
      process_stream_lines parse (line :: rest) parts n =
        process_stream_lines parse rest (parts ++ [content]) (n + strLen content)) ∧
    (∀ (parse : String → Option StreamFrame) rest parts n (line : String) f,
      strStarts (pyStrip line) ("data: ") = true → pyStrip line ≠ "data: [DONE]" →
      parse (strDrop (pyStrip line) 6) = some f → f.choices = ⟨none, some ""⟩ :: [] →
      process_stream_lines parse (line :: rest) parts n =
        process_stream_lines parse rest parts n) ∧
    clean_translation_result (String.join (process_stream_lines demo_parse demo_lines [] 0).1) =
      "Hello" := by
  have hblank : ∀ (parse : String → Option StreamFrame) rest parts n (line : String),
      pyStrip line = "" →
      process_stream_lines parse (line :: rest) parts n =
        process_stream_lines parse rest parts n := by
    intro parse rest parts n line h
    by_cases he : line = ""
    · simp [process_stream_lines, he]
    · simp [process_stream_lines, he, h]
  have hne : ∀ (line : String), strStarts (pyStrip line) ("data: ") = true → line ≠ "" := by
    intro line hs he
    rw [he] at hs
    simp [pyStrip, strStarts, leadsWith] at hs
  have hnet : ∀ (line : String), strStarts (pyStrip line) ("data: ") = true →
      pyStrip line ≠ "" := by
    intro line hs he
    rw [he] at hs
    simp [strStarts, leadsWith] at hs
  refine ⟨hblank, ?_, ?_, ?_, ?_, ?_, ?_⟩
  · intro parse rest parts n line h
    have h1 : line ≠ "" := by
      intro he; rw [he] at h; exact absurd h (by decide)
    have h2 : pyStrip line ≠ "" := by
      rw [h]; decide
    simp [process_stream_lines, h1, h2, h]
  · intro parse rest parts n line hs hd hp
    simp [process_stream_lines, hne line hs, hnet line hs, hd, hs, hp]
  · intro parse rest parts n line f r tl hs hd hp hch
    simp [process_stream_lines, hne line hs, hnet line hs, hd, hs, hp, hch]
  · intro parse rest parts n line f content hs hd hp hch hc
    simp [process_stream_lines, hne line hs, hnet line hs, hd, hs, hp, hch, hc]
  · intro parse rest parts n line f hs hd hp hch
    simp [process_stream_lines, hne line hs, hnet line hs, hd, hs, hp, hch]
  · decide

/-- Witness for C1: the sentinel clause applied at a concrete line. -/
theorem streaming_loop_behavior_witness :
    process_stream_lines (fun _ => none) ["data: [DONE]"] ["x"] 1 = (["x"], 1) := by
  exact streaming_loop_behavior.2.1 (fun _ => none) [] ["x"] 1 ("data: [DONE]") (by decide)

/-- C2: the translate operation is total by type (every exception of the source
is caught and converted to a value); a transport-level failure of the streaming
call, and a streamed result whose accumulated content is empty or
whitespace-only, each produce exactly the fallback call's result, invoked once
with the same prompt and system prompt; a non-empty streamed result never
invokes the fallback; and when the fallback itself fails the returned value is
the literal failure marker embedding the original input text. -/
theorem translate_fallback_behavior :
    ∀ (parse : String → Option StreamFrame) (fb : String → String → Except Unit String)
      (text prompt system_prompt : String),
    (∀ e, translate_with_streaming_api parse (.error e) fb text prompt system_prompt =
      fallback_translate_text fb text prompt system_prompt) ∧
    (∀ ls, pyStrip (String.join (process_stream_lines parse ls [] 0).1) = "" →
      translate_with_streaming_api parse (.ok ls) fb text prompt system_prompt =
        fallback_translate_text fb text prompt system_prompt) ∧
    ((fallback_translate_text fb text prompt system_prompt).2 = 1) ∧
    (∀ ls, pyStrip (String.join (process_stream_lines parse ls [] 0).1) ≠ "" →
      (translate_with_streaming_api parse (.ok ls) fb text prompt system_prompt).2 = 0) ∧
    (∀ e, fb prompt system_prompt = .error e →
      (fallback_translate_text fb text prompt system_prompt).1 = "[翻译失败] " ++ text) := by
  intro parse fb text prompt system_prompt
  refine ⟨?_, ?_, ?_, ?_, ?_⟩
  · intro e; rfl
  · intro ls h
    have hr : translate_with_streaming_api parse (.ok ls) fb text prompt system_prompt =
        if pyStrip (String.join (process_stream_lines parse ls [] 0).1) = "" then
          fallback_translate_text fb text prompt system_prompt
        else (clean_translation_result (String.join (process_stream_lines parse ls [] 0).1), 0) :=
      rfl
    rw [hr, if_pos h]
  · show (match fb prompt system_prompt with
      | .ok content => (clean_translation_result content, 1)
      | .error _ => ("[翻译失败] " ++ text, 1)).2 = 1
    cases fb prompt system_prompt <;> rfl
  · intro ls h
    have hr : translate_with_streaming_api parse (.ok ls) fb text prompt system_prompt =
        if pyStrip (String.join (process_stream_lines parse ls [] 0).1) = "" then
          fallback_translate_text fb text prompt system_prompt
        else (clean_translation_result (String.join (process_stream_lines parse ls [] 0).1), 0) :=
      rfl
    rw [hr, if_neg h]
  · intro e h
    simp [fallback_translate_text, h]

/-- Witness for C2: the empty-stream clause at concrete oracles (a stream with
no lines accumulates the empty string, and the failing fallback yields the
failure marker). -/
theorem translate_fallback_behavior_witness :
    translate_with_streaming_api (fun _ => none) (.ok []) (fun _ _ => .error ())
        ("abc") ("p") ("sp") =
      fallback_translate_text (fun _ _ => .error ()) ("abc") ("p") ("sp") ∧
    (fallback_translate_text (fun _ _ => .error ()) ("abc") ("p") ("sp")).1 =
      "[翻译失败] " ++ "abc" := by
  refine ⟨?_, ?_⟩
  · exact (translate_fallback_behavior (fun _ => none) (fun _ _ => .error ())
      ("abc") ("p") ("sp")).2.1 [] (by decide)
  · exact (translate_fallback_behavior (fun _ => none) (fun _ _ => .error ())
      ("abc") ("p") ("sp")).2.2.2.2 () rfl

/-! ## Paragraph chunking (`_split_text_by_paragraphs`)

`re.split(r'\n\s*\n', text)` scans positions left to right; at a newline the
greedy `\s*` consumes the following whitespace run and backtracks to the last
newline inside that run, so a match is a newline followed by a whitespace run
containing at least one further newline, ending at the last such newline.
`lastNlTail` performs exactly that backtracking search: it walks the leading
whitespace run and remembers the tail after the last newline seen. -/

/-- Walk the leading whitespace run of `cs`; record the tail following every
newline met; stop at the first non-whitespace character (or the end) and
return the most recent record. -/
def lastNlTail : List Char → Option (List Char) → Option (List Char)
  | [], acc => acc
  | c :: rest, acc =>
    if c = '\n' then lastNlTail rest (some rest)
    else if pyIsSpace c then lastNlTail rest acc
    else acc

/-- Fuelled splitting loop for `re.split(r'\n\s*\n', text)`: accumulate the
current piece (reversed) until a separator match, then emit it and restart
after the match.  The fuel only serves structural recursion; it is always
called with fuel at least the length of the list. -/
def re_split_blank_fuel : Nat → List Char → List Char → List (List Char)
  | 0, cs, acc => [acc.reverse ++ cs]
  | fuel + 1, cs, acc =>
    match cs with
    | [] => [acc.reverse]
    | c :: rest =>
      if c = '\n' then
        match lastNlTail rest none with
        | some r => acc.reverse :: re_split_blank_fuel fuel r []
        | none => re_split_blank_fuel fuel rest (c :: acc)
      else re_split_blank_fuel fuel rest (c :: acc)

/-- `re.split(r'\n\s*\n', cs)` over a character list. -/
def re_split_blank (cs : List Char) : List (List Char) :=
  re_split_blank_fuel cs.length cs []

/-- The first piece produced by the split: characters up to the first
separator match (the whole list when there is no match). -/
def firstPiece : List Char → List Char
  | [] => []
  | c :: rest =>
    if c = '\n' then
      match lastNlTail rest none with
      | some _ => []
      | none => c :: firstPiece rest
    else c :: firstPiece rest

/-- The remainder after the first separator match, `none` when the list
contains no match. -/
def afterFirst : List Char → Option (List Char)
  | [] => none
  | c :: rest =>
    if c = '\n' then
      match lastNlTail rest none with
      | some r => some r
      | none => afterFirst rest
    else afterFirst rest

theorem lastNlTail_length : ∀ (cs : List Char) (acc : Option (List Char)) (r : List Char),
    lastNlTail cs acc = some r → r.length ≤ cs.length ∨ acc = some r := by
  intro cs
  induction cs with
  | nil => intro acc r h; exact Or.inr h
  | cons c rest ih =>
    intro acc r h
    rw [lastNlTail] at h
    by_cases hc : c = '\n'
    · rw [if_pos hc] at h
      rcases ih (some rest) r h with h1 | h1
      · exact Or.inl (Nat.le_succ_of_le h1)
      · cases h1
        exact Or.inl (by simp)
    · rw [if_neg hc] at h
      by_cases hs : pyIsSpace c
      · rw [if_pos hs] at h
        rcases ih acc r h with h1 | h1
        · exact Or.inl (Nat.le_succ_of_le h1)
        · exact Or.inr h1
      · rw [if_neg hs] at h
        exact Or.inr h

theorem lastNlTail_none_length (cs : List Char) (r : List Char)
    (h : lastNlTail cs none = some r) : r.length ≤ cs.length := by
  rcases lastNlTail_length cs none r h with h1 | h1
  · exact h1
  · cases h1

theorem re_split_blank_fuel_congr : ∀ (f g : Nat) (cs : List Char) (acc : List Char),
    cs.length ≤ f → cs.length ≤ g →
    re_split_blank_fuel f cs acc = re_split_blank_fuel g cs acc := by
  intro f
  induction f with
  | zero =>
    intro g cs acc hf _
    have hcs : cs = [] := List.length_eq_zero.mp (Nat.le_zero.mp hf)
    subst hcs
    cases g with
    | zero => rfl
    | succ g => simp [re_split_blank_fuel]
  | succ f ih =>
    intro g cs acc hf hg
    cases g with
    | zero =>
      have hcs : cs = [] := List.length_eq_zero.mp (Nat.le_zero.mp hg)
      subst hcs
      simp [re_split_blank_fuel]
    | succ g =>
      cases cs with
      | nil => simp [re_split_blank_fuel]
      | cons c rest =>
        simp only [re_split_blank_fuel]
        have hrf : rest.length ≤ f := by simpa using hf
        have hrg : rest.length ≤ g := by simpa using hg
        by_cases hc : c = '\n'
        · rw [if_pos hc, if_pos hc]
          cases hnl : lastNlTail rest none with
          | none => exact ih g rest (c :: acc) hrf hrg
          | some r =>
            have hr : r.length ≤ rest.length := lastNlTail_none_length rest r hnl
            show acc.reverse :: re_split_blank_fuel f r [] =
              acc.reverse :: re_split_blank_fuel g r []
            rw [ih g r [] (le_trans hr hrf) (le_trans hr hrg)]
        · rw [if_neg hc, if_neg hc]
          exact ih g rest (c :: acc) hrf hrg

theorem afterFirst_length : ∀ (cs : List Char) (r : List Char),
    afterFirst cs = some r → r.length < cs.length := by
  intro cs
  induction cs with
  | nil => intro r h; cases h
  | cons c rest ih =>
    intro r h
    rw [afterFirst] at h
    by_cases hc : c = '\n'
    · rw [if_pos hc] at h
      cases hnl : lastNlTail rest none with
      | none =>
        rw [hnl] at h
        exact Nat.lt_succ_of_lt (ih r h)
      | some r' =>
        rw [hnl] at h
        cases h
        exact Nat.lt_succ_of_le (lastNlTail_none_length rest r hnl)
    · rw [if_neg hc] at h
      exact Nat.lt_succ_of_lt (ih r h)

/-- Decomposition of the splitting loop through `firstPiece`/`afterFirst`. -/
theorem re_split_blank_fuel_decomp : ∀ (fuel : Nat) (cs : List Char) (acc : List Char),
    cs.length ≤ fuel →
    re_split_blank_fuel fuel cs acc =
      (acc.reverse ++ firstPiece cs) ::
        (match afterFirst cs with
          | none => []
          | some r => re_split_blank_fuel r.length r []) := by
  intro fuel
  induction fuel with
  | zero =>
    intro cs acc hf
    have hcs : cs = [] := List.length_eq_zero.mp (Nat.le_zero.mp hf)
    subst hcs
    simp [re_split_blank_fuel, firstPiece, afterFirst]
  | succ fuel ih =>
    intro cs acc hf
    cases cs with
    | nil => simp [re_split_blank_fuel, firstPiece, afterFirst]
    | cons c rest =>
      have hrf : rest.length ≤ fuel := by simpa using hf
      simp only [re_split_blank_fuel, firstPiece, afterFirst]
      by_cases hc : c = '\n'
      · rw [if_pos hc, if_pos hc, if_pos hc]
        cases hnl : lastNlTail rest none with
        | none =>
          show re_split_blank_fuel fuel rest (c :: acc) =
            (acc.reverse ++ c :: firstPiece rest) ::
              (match afterFirst rest with
                | none => []
                | some r => re_split_blank_fuel r.length r [])
          rw [ih rest (c :: acc) hrf]
          simp
        | some r =>
          have hr : r.length ≤ rest.length := lastNlTail_none_length rest r hnl
          show acc.reverse :: re_split_blank_fuel fuel r [] =
            (acc.reverse ++ []) :: re_split_blank_fuel r.length r []
          rw [re_split_blank_fuel_congr fuel r.length r [] (le_trans hr hrf) (le_refl _)]
          simp
      · rw [if_neg hc, if_neg hc, if_neg hc]
        show re_split_blank_fuel fuel rest (c :: acc) =
          (acc.reverse ++ c :: firstPiece rest) ::
            (match afterFirst rest with
              | none => []
              | some r => re_split_blank_fuel r.length r [])
        rw [ih rest (c :: acc) hrf]
        simp

theorem re_split_blank_decomp (cs : List Char) :
    re_split_blank cs =
      firstPiece cs ::
        (match afterFirst cs with
          | none => []
          | some r => re_split_blank r) := by
  unfold re_split_blank
  rw [re_split_blank_fuel_decomp cs.length cs [] (le_refl _)]
  cases h : afterFirst cs with
  | none => simp
  | some r => simp

/-- The leading whitespace run of the list contains no newline (the run may
extend to the end of the list). -/
def noNlInWsRun : List Char → Bool
  | [] => true
  | c :: rest =>
    if c = '\n' then false
    else if pyIsSpace c then noNlInWsRun rest
    else true

/-- The leading whitespace run of the list contains no newline and is followed
by a non-whitespace character inside the list. -/
def wsRunBlocked : List Char → Bool
  | [] => false
  | c :: rest =>
    if c = '\n' then false
    else if pyIsSpace c then wsRunBlocked rest
    else true

/-- Every newline of the piece is followed, inside the piece, by a
non-whitespace character before any further newline: the piece stays
match-free even when a separator is appended after it. -/
def strongOk : List Char → Bool
  | [] => true
  | c :: rest => (if c = '\n' then wsRunBlocked rest else true) && strongOk rest

/-- Every newline of the piece heads a whitespace run with no further newline:
the piece is match-free as the final piece (nothing appended after it). -/
def lastOk : List Char → Bool
  | [] => true
  | c :: rest => (if c = '\n' then noNlInWsRun rest else true) && lastOk rest

/-- Head condition for the remaining pieces: an interior piece must block its
leading whitespace run inside itself, the final piece need only keep the run
newline-free. -/
def okHead : List (List Char) → Bool
  | [] => true
  | [q] => noNlInWsRun q
  | q :: _ :: _ => wsRunBlocked q

/-- Invariant of the piece list produced by the blank-line split: sufficient
for the separator-rejoin round trip. -/
def piecesOk : List (List Char) → Bool
  | [] => true
  | [p] => lastOk p
  | p :: rest => strongOk p && okHead rest && piecesOk rest

/-- Join pieces with the canonical blank-line separator. -/
def joinSep : List (List Char) → List Char
  | [] => []
  | [p] => p
  | p :: rest => p ++ '\n' :: '\n' :: joinSep rest

theorem lastNlTail_of_noNl : ∀ (r : List Char) (acc : Option (List Char)),
    noNlInWsRun r = true → lastNlTail r acc = acc := by
  intro r
  induction r with
  | nil => intro acc _; rfl
  | cons c rest ih =>
    intro acc h
    rw [noNlInWsRun] at h
    rw [lastNlTail]
    by_cases hc : c = '\n'
    · rw [if_pos hc] at h; cases h
    · rw [if_neg hc] at h
      rw [if_neg hc]
      by_cases hs : pyIsSpace c
      · rw [if_pos hs] at h
        rw [if_pos hs]
        exact ih acc h
      · rw [if_neg hs]

theorem lastNlTail_append_of_blocked : ∀ (p z : List Char) (acc : Option (List Char)),
    wsRunBlocked p = true → lastNlTail (p ++ z) acc = acc := by
  intro p
  induction p with
  | nil => intro z acc h; cases h
  | cons c rest ih =>
    intro z acc h
    rw [wsRunBlocked] at h
    rw [List.cons_append, lastNlTail]
    by_cases hc : c = '\n'
    · rw [if_pos hc] at h; cases h
    · rw [if_neg hc] at h
      rw [if_neg hc]
      by_cases hs : pyIsSpace c
      · rw [if_pos hs] at h
        rw [if_pos hs]
        exact ih z acc h
      · rw [if_neg hs]

theorem lastNlTail_some_noNl : ∀ (cs : List Char) (acc : Option (List Char)) (r : List Char),
    lastNlTail cs acc = some r →
    noNlInWsRun r = true ∨ (acc = some r ∧ noNlInWsRun cs = true) := by
  intro cs
  induction cs with
  | nil => intro acc r h; exact Or.inr ⟨h, rfl⟩
  | cons c rest ih =>
    intro acc r h
    rw [lastNlTail] at h
    by_cases hc : c = '\n'
    · rw [if_pos hc] at h
      rcases ih (some rest) r h with h1 | ⟨h1, h2⟩
      · exact Or.inl h1
      · cases h1
        exact Or.inl h2
    · rw [if_neg hc] at h
      by_cases hs : pyIsSpace c
      · rw [if_pos hs] at h
        rcases ih acc r h with h1 | ⟨h1, h2⟩
        · exact Or.inl h1
        · refine Or.inr ⟨h1, ?_⟩
          rw [noNlInWsRun, if_neg hc, if_pos hs]
          exact h2
      · rw [if_neg hs] at h
        refine Or.inr ⟨h, ?_⟩
        rw [noNlInWsRun, if_neg hc, if_neg hs]

theorem lastNlTail_some_of_none : ∀ (cs : List Char) (r : List Char),
    lastNlTail cs (some r) ≠ none := by
  intro cs
  induction cs with
  | nil => intro r h; cases h
  | cons c rest ih =>
    intro r h
    rw [lastNlTail] at h
    by_cases hc : c = '\n'
    · rw [if_pos hc] at h; exact ih rest h
    · rw [if_neg hc] at h
      by_cases hs : pyIsSpace c
      · rw [if_pos hs] at h; exact ih r h
      · rw [if_neg hs] at h; cases h

theorem lastNlTail_none_noNl : ∀ (cs : List Char),
    lastNlTail cs none = none → noNlInWsRun cs = true := by
  intro cs
  induction cs with
  | nil => intro _; rfl
  | cons c rest ih =>
    intro h
    rw [lastNlTail] at h
    rw [noNlInWsRun]
    by_cases hc : c = '\n'
    · rw [if_pos hc] at h
      exact absurd h (lastNlTail_some_of_none rest rest)
    · rw [if_neg hc] at h
      rw [if_neg hc]
      by_cases hs : pyIsSpace c
      · rw [if_pos hs] at h
        rw [if_pos hs]
        exact ih h
      · rw [if_neg hs]

theorem firstPiece_of_lastOk : ∀ (p : List Char), lastOk p = true →
    firstPiece p = p ∧ afterFirst p = none := by
  intro p
  induction p with
  | nil => intro _; exact ⟨rfl, rfl⟩
  | cons c rest ih =>
    intro h
    rw [lastOk, Bool.and_eq_true] at h
    obtain ⟨h1, h2⟩ := h
    rcases ih h2 with ⟨ihf, iha⟩
    rw [firstPiece, afterFirst]
    by_cases hc : c = '\n'
    · rw [if_pos hc] at h1 ⊢
      rw [if_pos hc]
      rw [lastNlTail_of_noNl rest none h1]
      exact ⟨by rw [ihf], iha⟩
    · rw [if_neg hc, if_neg hc]
      exact ⟨by rw [ihf], iha⟩

theorem lastOk_of_afterFirst_none : ∀ (p : List Char), afterFirst p = none →
    firstPiece p = p ∧ lastOk p = true := by
  intro p
  induction p with
  | nil => intro _; exact ⟨rfl, rfl⟩
  | cons c rest ih =>
    intro h
    rw [afterFirst] at h
    rw [firstPiece, lastOk]
    by_cases hc : c = '\n'
    · rw [if_pos hc] at h ⊢
      rw [if_pos hc]
      cases hnl : lastNlTail rest none with
      | some r => rw [hnl] at h; cases h
      | none =>
        rw [hnl] at h
        rcases ih h with ⟨ihf, ihl⟩
        refine ⟨by rw [ihf], ?_⟩
        rw [lastNlTail_none_noNl rest hnl, ihl]
        rfl
    · rw [if_neg hc] at h ⊢
      rw [if_neg hc]
      rcases ih h with ⟨ihf, ihl⟩
      exact ⟨by rw [ihf], by rw [ihl]; rfl⟩

theorem noNl_of_afterFirst : ∀ (cs : List Char) (r : List Char),
    afterFirst cs = some r → noNlInWsRun r = true := by
  intro cs
  induction cs with
  | nil => intro r h; cases h
  | cons c rest ih =>
    intro r h
    rw [afterFirst] at h
    by_cases hc : c = '\n'
    · rw [if_pos hc] at h
      cases hnl : lastNlTail rest none with
      | none => rw [hnl] at h; exact ih r h
      | some r' =>
        rw [hnl] at h
        cases h
        rcases lastNlTail_some_noNl rest none r hnl with h1 | ⟨h1, _⟩
        · exact h1
        · cases h1
    · rw [if_neg hc] at h
      exact ih r h

theorem firstPiece_noNl : ∀ (r : List Char), noNlInWsRun r = true →
    noNlInWsRun (firstPiece r) = true := by
  intro r
  induction r with
  | nil => intro _; rfl
  | cons c rest ih =>
    intro h
    rw [noNlInWsRun] at h
    rw [firstPiece]
    by_cases hc : c = '\n'
    · rw [if_pos hc] at h; cases h
    · rw [if_neg hc] at h
      rw [if_neg hc]
      by_cases hs : pyIsSpace c
      · rw [if_pos hs] at h
        rw [noNlInWsRun, if_neg hc, if_pos hs]
        exact ih h
      · rw [noNlInWsRun, if_neg hc, if_neg hs]

theorem firstPiece_blocked : ∀ (r : List Char), noNlInWsRun r = true →
    (∃ x, afterFirst r = some x) → wsRunBlocked (firstPiece r) = true := by
  intro r
  induction r with
  | nil =>
    intro _ ⟨x, hx⟩
    cases hx
  | cons c rest ih =>
    intro h hx
    rw [noNlInWsRun] at h
    rw [firstPiece]
    by_cases hc : c = '\n'
    · rw [if_pos hc] at h; cases h
    · rw [if_neg hc] at h
      rw [if_neg hc]
      by_cases hs : pyIsSpace c
      · rw [if_pos hs] at h
        rcases hx with ⟨x, hx⟩
        rw [afterFirst, if_neg hc] at hx
        rw [wsRunBlocked, if_neg hc, if_pos hs]
        exact ih h ⟨x, hx⟩
      · rw [wsRunBlocked, if_neg hc, if_neg hs]

theorem strongOk_firstPiece : ∀ (cs : List Char) (r : List Char),
    afterFirst cs = some r → strongOk (firstPiece cs) = true := by
  intro cs
  induction cs with
  | nil => intro r h; cases h
  | cons c rest ih =>
    intro r h
    rw [afterFirst] at h
    rw [firstPiece]
    by_cases hc : c = '\n'
    · rw [if_pos hc] at h ⊢
      cases hnl : lastNlTail rest none with
      | some r' => rfl
      | none =>
        rw [hnl] at h
        rw [strongOk, if_pos hc]
        have hnoNl : noNlInWsRun rest = true := lastNlTail_none_noNl rest hnl
        rw [firstPiece_blocked rest hnoNl ⟨r, h⟩, ih r h]
        rfl
    · rw [if_neg hc] at h ⊢
      rw [strongOk, if_neg hc, ih r h]
      rfl

theorem wsRunBlocked_append : ∀ (q z : List Char),
    wsRunBlocked q = true → noNlInWsRun (q ++ z) = true := by
  intro q
  induction q with
  | nil => intro z h; cases h
  | cons c rest ih =>
    intro z h
    rw [wsRunBlocked] at h
    rw [List.cons_append, noNlInWsRun]
    by_cases hc : c = '\n'
    · rw [if_pos hc] at h; cases h
    · rw [if_neg hc] at h
      rw [if_neg hc]
      by_cases hs : pyIsSpace c
      · rw [if_pos hs] at h
        rw [if_pos hs]
        exact ih z h
      · rw [if_neg hs]

/-- A match-free piece followed by the canonical separator and a remainder with
a newline-free leading run splits exactly at the separator. -/
theorem concat_decomp : ∀ (p z : List Char), strongOk p = true → noNlInWsRun z = true →
    firstPiece (p ++ '\n' :: '\n' :: z) = p ∧
      afterFirst (p ++ '\n' :: '\n' :: z) = some z := by
  intro p
  induction p with
  | nil =>
    intro z _ hz
    rw [List.nil_append, firstPiece, afterFirst]
    rw [if_pos rfl, if_pos rfl]
    have : lastNlTail ('\n' :: z) none = some z := by
      rw [lastNlTail, if_pos rfl]
      exact lastNlTail_of_noNl z (some z) hz
    rw [this]
    exact ⟨rfl, rfl⟩
  | cons c p' ih =>
    intro z h hz
    rw [strongOk, Bool.and_eq_true] at h
    obtain ⟨h1, h2⟩ := h
    rcases ih z h2 hz with ⟨ihf, iha⟩
    rw [List.cons_append, firstPiece, afterFirst]
    by_cases hc : c = '\n'
    · rw [if_pos hc] at h1 ⊢
      rw [if_pos hc]
      have : lastNlTail (p' ++ '\n' :: '\n' :: z) none = none :=
        lastNlTail_append_of_blocked p' ('\n' :: '\n' :: z) none h1
      rw [this]
      exact ⟨by rw [ihf], iha⟩
    · rw [if_neg hc, if_neg hc]
      exact ⟨by rw [ihf], iha⟩

theorem piecesOk_re_split_aux : ∀ (n : Nat) (cs : List Char), cs.length ≤ n →
    piecesOk (re_split_blank cs) = true := by
  intro n
  induction n with
  | zero =>
    intro cs hcs
    have : cs = [] := List.length_eq_zero.mp (Nat.le_zero.mp hcs)
    subst this
    decide
  | succ n ih =>
    intro cs hcs
    rw [re_split_blank_decomp]
    cases haf : afterFirst cs with
    | none =>
      rcases lastOk_of_afterFirst_none cs haf with ⟨hf, hl⟩
      show piecesOk [firstPiece cs] = true
      rw [hf]
      exact hl
    | some r =>
      have hr : r.length ≤ n := by
        have := afterFirst_length cs r haf
        omega
      have hso : strongOk (firstPiece cs) = true := strongOk_firstPiece cs r haf
      have hnr : noNlInWsRun r = true := noNl_of_afterFirst cs r haf
      have hpr : piecesOk (re_split_blank r) = true := ih r hr
      show piecesOk (firstPiece cs :: re_split_blank r) = true
      cases har : afterFirst r with
      | none =>
        have h1 : re_split_blank r = [firstPiece r] := by
          rw [re_split_blank_decomp r, har]
        rw [h1] at hpr ⊢
        have hq : noNlInWsRun (firstPiece r) = true := firstPiece_noNl r hnr
        show ((strongOk (firstPiece cs) && noNlInWsRun (firstPiece r)) &&
          piecesOk [firstPiece r]) = true
        rw [hso, hq, hpr]
        rfl
      | some r2 =>
        obtain ⟨M, hM⟩ : ∃ M, re_split_blank r2 = firstPiece r2 :: M :=
          ⟨_, re_split_blank_decomp r2⟩
        have h1 : re_split_blank r = firstPiece r :: firstPiece r2 :: M := by
          rw [re_split_blank_decomp r, har]
          show firstPiece r :: re_split_blank r2 = firstPiece r :: firstPiece r2 :: M
          rw [hM]
        rw [h1] at hpr ⊢
        have hq : wsRunBlocked (firstPiece r) = true :=
          firstPiece_blocked r hnr ⟨r2, har⟩
        show ((strongOk (firstPiece cs) && wsRunBlocked (firstPiece r)) &&
          piecesOk (firstPiece r :: firstPiece r2 :: M)) = true
        rw [hso, hq, hpr]
        rfl

/-- The separator-rejoin invariant holds of every split result. -/
theorem piecesOk_re_split (cs : List Char) : piecesOk (re_split_blank cs) = true :=
  piecesOk_re_split_aux cs.length cs (le_refl _)

/-- Round trip: a piece list satisfying the invariant is recovered exactly by
splitting its separator join. -/
theorem re_split_joinSep : ∀ (ps : List (List Char)), piecesOk ps = true → ps ≠ [] →
    re_split_blank (joinSep ps) = ps := by
  intro ps
  induction ps with
  | nil => intro _ h; exact absurd rfl h
  | cons p rest ih =>
    intro h _
    cases rest with
    | nil =>
      have hl : lastOk p = true := h
      rcases firstPiece_of_lastOk p hl with ⟨hf, ha⟩
      show re_split_blank p = [p]
      rw [re_split_blank_decomp, hf, ha]
    | cons q rest' =>
      have h' : ((strongOk p && okHead (q :: rest')) && piecesOk (q :: rest')) = true := h
      rw [Bool.and_eq_true, Bool.and_eq_true] at h'
      obtain ⟨⟨h1, h2⟩, h3⟩ := h'
      have hnl : noNlInWsRun (joinSep (q :: rest')) = true := by
        cases rest' with
        | nil => exact h2
        | cons x xs =>
          show noNlInWsRun (q ++ '\n' :: '\n' :: joinSep (x :: xs)) = true
          exact wsRunBlocked_append q _ h2
      rcases concat_decomp p (joinSep (q :: rest')) h1 hnl with ⟨hf, ha⟩
      show re_split_blank (p ++ '\n' :: '\n' :: joinSep (q :: rest')) = p :: q :: rest'
      rw [re_split_blank_decomp, hf, ha]
      show p :: re_split_blank (joinSep (q :: rest')) = p :: q :: rest'
      rw [ih h3 (by simp)]

/-- `re.split(r'\n\s*\n', text)` at string level: the paragraph list of
`_split_text_by_paragraphs` line 474. -/
def split_paragraphs (text : String) : List String :=
  (re_split_blank text.data).map List.asString

/-- The accumulation loop of `_split_text_by_paragraphs` (lines 476-491): add
each paragraph to the current chunk, separated by a blank line, while the
length check `len(current_chunk) + len(paragraph) <= max_chunk_size` passes
(the two separator characters are not counted by the check); otherwise close
the non-empty current chunk and start a new one. -/
def chunk_loop (max_chunk_size : Nat) : List String → List String → String → List String
  | [], chunks, current => if current = "" then chunks else chunks ++ [current]
  | p :: ps, chunks, current =>
    if strLen current + strLen p ≤ max_chunk_size then
      if current = "" then chunk_loop max_chunk_size ps chunks p
      else chunk_loop max_chunk_size ps chunks (current ++ "\n\n" ++ p)
    else
      if current = "" then chunk_loop max_chunk_size ps chunks p
      else chunk_loop max_chunk_size ps (chunks ++ [current]) p

/-- `DocumentProcessor._split_text_by_paragraphs`. -/
def split_text_by_paragraphs (text : String) (max_chunk_size : Nat) : List String :=
  chunk_loop max_chunk_size (split_paragraphs text) [] ""

/-- Join chunks (or paragraphs) with the blank-line separator reinserted. -/
def join_paragraphs : List String → String
  | [] => ""
  | [p] => p
  | p :: ps => p ++ "\n\n" ++ join_paragraphs ps

theorem strLen_append (a b : String) : strLen (a ++ b) = strLen a + strLen b := by
  simp [strLen, String.data_append]

theorem strAppend_ne_empty (a b : String) (h : a ≠ "") : a ++ b ≠ "" := by
  intro he
  apply h
  have hd : a.data ++ b.data = [] := by
    rw [← String.data_append, he]
  apply String.ext
  rw [(List.append_eq_nil.mp hd).1]

theorem join_paragraphs_merge : ∀ (xs : List String) (a b : String) (ys : List String),
    join_paragraphs (xs ++ (a ++ "\n\n" ++ b) :: ys) =
      join_paragraphs (xs ++ a :: b :: ys) := by
  intro xs
  induction xs with
  | nil =>
    intro a b ys
    cases ys with
    | nil => rfl
    | cons y ys' =>
      show ((a ++ "\n\n" ++ b) ++ "\n\n") ++ join_paragraphs (y :: ys') =
        (a ++ "\n\n") ++ ((b ++ "\n\n") ++ join_paragraphs (y :: ys'))
      apply String.ext
      simp [String.data_append]
  | cons x xs' ih =>
    intro a b ys
    cases xs' with
    | nil =>
      show (x ++ "\n\n") ++ join_paragraphs ((a ++ "\n\n" ++ b) :: ys) =
        (x ++ "\n\n") ++ join_paragraphs (a :: b :: ys)
      have h := ih a b ys
      simp only [List.nil_append] at h
      rw [h]
    | cons x2 xs2 =>
      show (x ++ "\n\n") ++ join_paragraphs ((x2 :: xs2) ++ (a ++ "\n\n" ++ b) :: ys) =
        (x ++ "\n\n") ++ join_paragraphs ((x2 :: xs2) ++ a :: b :: ys)
      rw [ih a b ys]

theorem chunk_loop_join : ∀ (max_chunk_size : Nat) (ps chunks : List String) (current : String),
    (∀ p ∈ ps, p ≠ "") →
    join_paragraphs (chunk_loop max_chunk_size ps chunks current) =
      join_paragraphs (chunks ++ (if current = "" then [] else [current]) ++ ps) := by
  intro m ps
  induction ps with
  | nil =>
    intro chunks current _
    show join_paragraphs (if current = "" then chunks else chunks ++ [current]) = _
    by_cases hc : current = ""
    · rw [if_pos hc, if_pos hc]
      simp
    · rw [if_neg hc, if_neg hc]
      simp
  | cons p ps' ih =>
    intro chunks current hne
    have hp : p ≠ "" := hne p (by simp)
    have hne' : ∀ q ∈ ps', q ≠ "" := fun q hq => hne q (by simp [hq])
    show join_paragraphs
        (if strLen current + strLen p ≤ m then
          if current = "" then chunk_loop m ps' chunks p
          else chunk_loop m ps' chunks (current ++ "\n\n" ++ p)
        else
          if current = "" then chunk_loop m ps' chunks p
          else chunk_loop m ps' (chunks ++ [current]) p) = _
    by_cases hfit : strLen current + strLen p ≤ m
    · rw [if_pos hfit]
      by_cases hc : current = ""
      · rw [if_pos hc, hc]
        rw [ih chunks p hne', if_neg hp]
        simp
      · rw [if_neg hc, if_neg hc]
        rw [ih chunks (current ++ "\n\n" ++ p) hne']
        rw [if_neg (strAppend_ne_empty (current ++ "\n\n") p
          (strAppend_ne_empty current ("\n\n") hc))]
        have hmerge := join_paragraphs_merge chunks current p ps'
        simp only [List.append_assoc, List.singleton_append, List.cons_append,
          List.nil_append] at hmerge ⊢
        rw [hmerge]
    · rw [if_neg hfit]
      by_cases hc : current = ""
      · rw [if_pos hc, hc]
        rw [ih chunks p hne', if_neg hp]
        simp
      · rw [if_neg hc, if_neg hc]
        rw [ih (chunks ++ [current]) p hne', if_neg hp]
        simp

theorem join_paragraphs_data : ∀ (ps : List (List Char)),
    (join_paragraphs (ps.map List.asString)).data = joinSep ps := by
  intro ps
  induction ps with
  | nil => rfl
  | cons p rest ih =>
    cases rest with
    | nil => rfl
    | cons q rest' =>
      show ((List.asString p ++ "\n\n") ++
        join_paragraphs ((q :: rest').map List.asString)).data =
        p ++ '\n' :: '\n' :: joinSep (q :: rest')
      rw [String.data_append, String.data_append, ih]
      show (p ++ ['\n', '\n']) ++ joinSep (q :: rest') = p ++ '\n' :: '\n' :: joinSep (q :: rest')
      simp

/-- C4 (amended): when every blank-line-delimited paragraph of the input is
non-empty, the chunks produced by `_split_text_by_paragraphs`, re-joined with
the blank-line separator between paragraphs and between chunks, re-split into
exactly the original paragraph sequence; the empty input yields the empty
chunk sequence; and an input that is its own single paragraph is returned
whole as one chunk.  (The non-empty-paragraph hypothesis is forced by the
counterexample: the accumulation loop silently drops empty paragraphs.) -/
theorem chunk_split_reconstruction :
    ∀ (text : String) (max_chunk_size : Nat),
      ((∀ p ∈ split_paragraphs text, p ≠ "") →
        split_paragraphs (join_paragraphs (split_text_by_paragraphs text max_chunk_size)) =
          split_paragraphs text) ∧
      split_text_by_paragraphs ("") max_chunk_size = [] ∧
      (text ≠ "" → split_paragraphs text = [text] →
        split_text_by_paragraphs text max_chunk_size = [text]) := by
  intro text N
  refine ⟨?_, ?_, ?_⟩
  · intro hne
    have h1 : join_paragraphs (split_text_by_paragraphs text N) =
        join_paragraphs (split_paragraphs text) := by
      have h := chunk_loop_join N (split_paragraphs text) [] ("") hne
      simpa using h
    rw [h1]
    show (re_split_blank
        (join_paragraphs ((re_split_blank text.data).map List.asString)).data).map
        List.asString = _
    rw [join_paragraphs_data]
    have hne2 : re_split_blank text.data ≠ [] := by
      rw [re_split_blank_decomp]
      simp
    rw [re_split_joinSep (re_split_blank text.data) (piecesOk_re_split text.data) hne2]
    rfl
  · have hsp : split_paragraphs ("") = [""] := by decide
    show chunk_loop N (split_paragraphs ("")) [] ("") = []
    rw [hsp, chunk_loop]
    rw [if_pos (show strLen ("") + strLen ("") ≤ N from Nat.zero_le N)]
    rw [if_pos rfl, chunk_loop, if_pos rfl]
  · intro hne hsp
    show chunk_loop N (split_paragraphs text) [] ("") = [text]
    rw [hsp, chunk_loop]
    by_cases hfit : strLen ("") + strLen text ≤ N
    · rw [if_pos hfit, if_pos rfl, chunk_loop, if_neg hne]
      rfl
    · rw [if_neg hfit, if_pos rfl, chunk_loop, if_neg hne]
      rfl

/-- Counterexample to C4 as stated: the input consisting of an empty paragraph
followed by `a` splits into paragraphs `["", "a"]`, but chunking drops the
empty paragraph, so the re-joined chunks re-split to `["a"]`, not the original
paragraph sequence. -/
theorem chunk_split_reconstruction_counterexample :
    split_paragraphs ("\n\na") = ["", "a"] ∧
    split_text_by_paragraphs ("\n\na") 10 = ["a"] ∧
    split_paragraphs (join_paragraphs (split_text_by_paragraphs ("\n\na") 10)) ≠
      split_paragraphs ("\n\na") := by
  decide

/-- Witness for C4: the reconstruction clause at a concrete two-paragraph
input whose chunks merge (the bound is even exceeded: `x\n\ny` has length 4
over bound 3, showing reconstruction holds independently of the bound). -/
theorem chunk_split_reconstruction_witness :
    split_paragraphs (join_paragraphs (split_text_by_paragraphs ("x\n\ny") 3)) =
      split_paragraphs ("x\n\ny") ∧
    split_text_by_paragraphs ("w") 5 = ["w"] :=
  ⟨(chunk_split_reconstruction ("x\n\ny") 3).1 (by decide),
    (chunk_split_reconstruction ("w") 5).2.2 (by decide) (by decide)⟩

theorem chunk_loop_size_inv : ∀ (m : Nat) (ps0 ps chunks : List String) (current : String),
    (∀ c ∈ chunks, c ≠ "" ∧ (c ∈ ps0 ∨ strLen c ≤ m + 2)) →
    (current = "" ∨ current ∈ ps0 ∨ strLen current ≤ m + 2) →
    (∀ p ∈ ps, p ∈ ps0) →
    ∀ c ∈ chunk_loop m ps chunks current, c ≠ "" ∧ (c ∈ ps0 ∨ strLen c ≤ m + 2) := by
  intro m ps0 ps
  induction ps with
  | nil =>
    intro chunks current h1 h2 _ c hc
    rw [chunk_loop] at hc
    by_cases hcur : current = ""
    · rw [if_pos hcur] at hc
      exact h1 c hc
    · rw [if_neg hcur] at hc
      rcases List.mem_append.mp hc with h | h
      · exact h1 c h
      · have : c = current := List.mem_singleton.mp h
        subst this
        exact ⟨hcur, h2.resolve_left hcur⟩
  | cons p ps' ih =>
    intro chunks current h1 h2 h3 c hc
    rw [chunk_loop] at hc
    have hp0 : p ∈ ps0 := h3 p (by simp)
    have h3' : ∀ q ∈ ps', q ∈ ps0 := fun q hq => h3 q (by simp [hq])
    by_cases hfit : strLen current + strLen p ≤ m
    · rw [if_pos hfit] at hc
      by_cases hcur : current = ""
      · rw [if_pos hcur] at hc
        exact ih chunks p h1 (Or.inr (Or.inl hp0)) h3' c hc
      · rw [if_neg hcur] at hc
        refine ih chunks (current ++ "\n\n" ++ p) h1 (Or.inr (Or.inr ?_)) h3' c hc
        have hsep : strLen ("\n\n") = 2 := rfl
        rw [strLen_append, strLen_append, hsep]
        omega
    · rw [if_neg hfit] at hc
      by_cases hcur : current = ""
      · rw [if_pos hcur] at hc
        exact ih chunks p h1 (Or.inr (Or.inl hp0)) h3' c hc
      · rw [if_neg hcur] at hc
        refine ih (chunks ++ [current]) p ?_ (Or.inr (Or.inl hp0)) h3' c hc
        intro d hd
        rcases List.mem_append.mp hd with h | h
        · exact h1 d h
        · have : d = current := List.mem_singleton.mp h
          subst this
          exact ⟨hcur, h2.resolve_left hcur⟩

/-- C3 (amended): every chunk returned by `_split_text_by_paragraphs` is
non-empty, and every chunk is a single paragraph of the input (in particular a
single oversized paragraph is emitted as its own chunk) or has length at most
`max_chunk_size + 2`.  (The `+ 2` is forced by the counterexample: the length
check of the loop does not count the two characters of the inserted blank-line
separator, so a multi-paragraph chunk may exceed the bound by the final
separator's length.) -/
theorem chunk_size_bound :
    ∀ (text : String) (max_chunk_size : Nat),
      ∀ c ∈ split_text_by_paragraphs text max_chunk_size,
        c ≠ "" ∧ (c ∈ split_paragraphs text ∨ strLen c ≤ max_chunk_size + 2) := by
  intro text N c hc
  refine chunk_loop_size_inv N (split_paragraphs text) (split_paragraphs text) [] ("")
    ?_ (Or.inl rfl) (fun p hp => hp) c hc
  intro d hd
  exact absurd hd (List.not_mem_nil d)

/-- Counterexample to C3 as stated: with bound 10, the two five-character
paragraphs `aaaaa` and `bbbbb` are merged (5 + 5 ≤ 10) into the single chunk
`aaaaa\n\nbbbbb` of length 12 > 10, and that chunk is not a single paragraph
of the input. -/
theorem chunk_size_bound_counterexample :
    split_text_by_paragraphs ("aaaaa\n\nbbbbb") 10 = ["aaaaa\n\nbbbbb"] ∧
    strLen ("aaaaa\n\nbbbbb") = 12 ∧
    split_paragraphs ("aaaaa\n\nbbbbb") = ["aaaaa", "bbbbb"] ∧
    ¬("aaaaa\n\nbbbbb" ∈ split_paragraphs ("aaaaa\n\nbbbbb")) := by
  decide

/-- Witness for C3: the bound applied to a concrete chunk of a concrete
split. -/
theorem chunk_size_bound_witness :
    ("ab" : String) ≠ "" ∧
      (("ab" : String) ∈ split_paragraphs ("ab") ∨ strLen ("ab") ≤ 5 + 2) :=
  chunk_size_bound ("ab") 5 ("ab") (by decide)

/-! ## Template store formatting (`prompts_manager.py`)

`get_template_with_params` renders a template with Python `str.format(**params)`
and catches `KeyError` to produce the missing-parameter message, scanning the
raw template text with `re.findall(r'\{(\w+)\}', template)` for the required
parameter names.  `str.format` is modelled for the brace language the manager
uses: literal text, doubled-brace escapes, and simple keyword fields made of
word characters (anything else - stray braces, unterminated or empty or
digit-only or non-word fields - is a non-KeyError formatting failure,
`valueError` below). -/

/-- Regex `\w` (ASCII range): letters, digits, underscore. -/
def isWordChar (c : Char) : Bool := c.isAlphanum || c = '_'

/-- One token of a parsed format string: a literal character or a keyword
replacement field. -/
inductive FmtTok where
  | lit (c : Char)
  | field (name : String)
deriving DecidableEq, Repr

/-- Parser state machine for `str.format`'s template scan, with fuel for
structural recursion (always called with fuel at least the input length).
The Bool is true inside a replacement field, `acc` collects the field name
(reversed).  Doubled braces become literal brace characters; a single `\x7b`
opens a field; a field accepts word characters up to `\x7d` and must be
non-empty and not digit-only (a digit-only field is positional, an
`IndexError`); everything else fails. -/
def parseFmtFuel : Nat → List Char → Bool → List Char → Option (List FmtTok)
  | 0, cs, inField, _ =>
    if cs = [] then (if inField then none else some []) else none
  | fuel + 1, cs, inField, acc =>
    match cs with
    | [] => if inField then none else some []
    | c :: rest =>
      if inField then
        if c = '\x7d' then
          if acc = [] then none
          else if acc.all Char.isDigit then none
          else (parseFmtFuel fuel rest false []).map
            (fun ts => FmtTok.field (List.asString acc.reverse) :: ts)
        else if isWordChar c then parseFmtFuel fuel rest true (c :: acc)
        else none
      else
        if c = '\x7b' then
          match rest with
          | [] => none
          | d :: rest2 =>
            if d = '\x7b' then
              (parseFmtFuel fuel rest2 false []).map (fun ts => FmtTok.lit '\x7b' :: ts)
            else parseFmtFuel fuel rest true []
        else if c = '\x7d' then
          match rest with
          | [] => none
          | d :: rest2 =>
            if d = '\x7d' then
              (parseFmtFuel fuel rest2 false []).map (fun ts => FmtTok.lit '\x7d' :: ts)
            else none
        else (parseFmtFuel fuel rest false []).map (fun ts => FmtTok.lit c :: ts)

/-- Parse a whole format string. -/
def parseFmt (cs : List Char) : Option (List FmtTok) := parseFmtFuel cs.length cs false []

/-- `re.findall(r'\{(\w+)\}', template)` as a left-to-right scan: outside a
candidate, a `\x7b` opens one; inside a candidate, word characters accumulate,
`\x7d` emits a non-empty name, a fresh `\x7b` restarts the candidate, anything
else abandons it. -/
def extractParamsSt : List Char → Bool → List Char → List String
  | [], _, _ => []
  | c :: rest, false, _ =>
    if c = '\x7b' then extractParamsSt rest true []
    else extractParamsSt rest false []
  | c :: rest, true, acc =>
    if c = '\x7d' then
      if acc = [] then extractParamsSt rest false []
      else List.asString acc.reverse :: extractParamsSt rest false []
    else if isWordChar c then extractParamsSt rest true (c :: acc)
    else if c = '\x7b' then extractParamsSt rest true []
    else extractParamsSt rest false []

/-- `PromptsManager._extract_template_params`. -/
def extract_template_params (template : String) : List String :=
  extractParamsSt template.data false []

/-- Failure modes of `str.format`: a `KeyError` carrying the missing keyword,
or any other formatting error (`ValueError`/`IndexError`). -/
inductive FmtError where
  | keyError (k : String)
  | valueError
deriving DecidableEq, Repr

/-- Keyword lookup in the parameter map (`**params`). -/
def lookupParam (m : List (String × String)) (k : String) : Option String :=
  match m with
  | [] => none
  | kv :: rest => if k = kv.1 then some kv.2 else lookupParam rest k

/-- Substitute the parsed tokens left to right; the first field whose keyword
is absent raises `KeyError` with that keyword, exactly as `str.format` does. -/
def renderToks (m : List (String × String)) : List FmtTok → Except FmtError String
  | [] => .ok ""
  | FmtTok.lit c :: rest =>
    match renderToks m rest with
    | .ok s => .ok (List.asString [c] ++ s)
    | .error e => .error e
  | FmtTok.field k :: rest =>
    match lookupParam m k with
    | none => .error (.keyError k)
    | some v =>
      match renderToks m rest with
      | .ok s => .ok (v ++ s)
      | .error e => .error e

/-- Python `template.format(**m)` over the modelled brace language. -/
def pyFormat (template : String) (m : List (String × String)) : Except FmtError String :=
  match parseFmt template.data with
  | none => .error .valueError
  | some toks => renderToks m toks

/-- Errors surfaced by `get_template_with_params`: the `ValueError` built in
its `except KeyError` handler, naming the missing key and the parameter list
scanned from the raw template; or a formatting failure it does not catch. -/
inductive TemplateError where
  | missingParameter (key : String) (required : List String)
  | formatFailure
deriving DecidableEq, Repr

/-- The formatting body of `PromptsManager.get_template_with_params` (lines
119-123): run `str.format`; re-raise a `KeyError` as the missing-parameter
error carrying the raw-text scan of required parameters. -/
def format_template (template : String) (m : List (String × String)) :
    Except TemplateError String :=
  match pyFormat template m with
  | .ok s => .ok s
  | .error (.keyError k) => .error (.missingParameter k (extract_template_params template))
  | .error .valueError => .error .formatFailure

/-- Literal tokens contain no brace characters: the template uses no doubled
braces (the well-formedness condition of the amended C5/C6). -/
def litOk : List FmtTok → Bool
  | [] => true
  | FmtTok.lit c :: rest => (!(c = '\x7b' || c = '\x7d')) && litOk rest
  | FmtTok.field _ :: rest => litOk rest

/-- Field names are non-empty and made of word characters. -/
def fieldOk : List FmtTok → Bool
  | [] => true
  | FmtTok.lit _ :: rest => fieldOk rest
  | FmtTok.field k :: rest => (!(k.data = [])) && k.data.all isWordChar && fieldOk rest

/-- The field names of the parsed tokens, in template order. -/
def fieldNamesOf : List FmtTok → List String
  | [] => []
  | FmtTok.lit _ :: rest => fieldNamesOf rest
  | FmtTok.field k :: rest => k :: fieldNamesOf rest

/-- The raw text a token list denotes. -/
def toksText : List FmtTok → List Char
  | [] => []
  | FmtTok.lit c :: rest => c :: toksText rest
  | FmtTok.field k :: rest => '\x7b' :: (k.data ++ '\x7d' :: toksText rest)

theorem litOk_lit (c : Char) (ts : List FmtTok) (h : litOk (FmtTok.lit c :: ts) = true) :
    (c = '\x7b' ∨ c = '\x7d') → False := by
  intro hc
  rw [litOk, Bool.and_eq_true] at h
  rcases hc with hc | hc <;> rw [hc] at h <;> exact absurd h.1 (by decide)

theorem toksText_lit (c : Char) (ts : List FmtTok) :
    toksText (FmtTok.lit c :: ts) = c :: toksText ts := rfl

theorem parseFmtFuel_false_step (fuel : Nat) (c : Char) (rest acc : List Char) :
    parseFmtFuel (fuel + 1) (c :: rest) false acc =
      (if c = '\x7b' then
        match rest with
        | [] => none
        | d :: rest2 =>
          if d = '\x7b' then
            (parseFmtFuel fuel rest2 false []).map (fun ts => FmtTok.lit '\x7b' :: ts)
          else parseFmtFuel fuel rest true []
      else if c = '\x7d' then
        match rest with
        | [] => none
        | d :: rest2 =>
          if d = '\x7d' then
            (parseFmtFuel fuel rest2 false []).map (fun ts => FmtTok.lit '\x7d' :: ts)
          else none
      else (parseFmtFuel fuel rest false []).map (fun ts => FmtTok.lit c :: ts)) := rfl

theorem parseFmtFuel_true_step (fuel : Nat) (c : Char) (rest acc : List Char) :
    parseFmtFuel (fuel + 1) (c :: rest) true acc =
      (if c = '\x7d' then
        if acc = [] then none
        else if acc.all Char.isDigit then none
        else (parseFmtFuel fuel rest false []).map
          (fun ts => FmtTok.field (List.asString acc.reverse) :: ts)
      else if isWordChar c then parseFmtFuel fuel rest true (c :: acc)
      else none) := rfl

/-- Inverse of the format parser on escape-free templates: the accepted input
is the text of the produced tokens, and the field tokens are well formed.  The
second clause describes the in-field state: the remaining input supplies the
rest of the current field name up to the closing brace. -/
theorem parseFmt_inverse : ∀ (fuel : Nat) (cs : List Char), cs.length ≤ fuel →
    (∀ toks, parseFmtFuel fuel cs false [] = some toks → litOk toks = true →
      toksText toks = cs ∧ fieldOk toks = true) ∧
    (∀ acc toks, acc.all isWordChar = true →
      parseFmtFuel fuel cs true acc = some toks → litOk toks = true →
      ∃ w toks2, cs = w ++ '\x7d' :: toksText toks2 ∧ w.all isWordChar = true ∧
        toks = FmtTok.field (List.asString (acc.reverse ++ w)) :: toks2 ∧
        litOk toks2 = true ∧ fieldOk toks2 = true ∧ acc.reverse ++ w ≠ []) := by
  intro fuel
  induction fuel with
  | zero =>
    intro cs hcs
    have hnil : cs = [] := List.length_eq_zero.mp (Nat.le_zero.mp hcs)
    subst hnil
    constructor
    · intro toks hp hl
      have : toks = [] := by
        rw [parseFmtFuel] at hp
        simp at hp
        exact hp
      subst this
      exact ⟨rfl, rfl⟩
    · intro acc toks _ hp _
      rw [parseFmtFuel] at hp
      simp at hp
  | succ fuel ih =>
    intro cs hcs
    cases cs with
    | nil =>
      constructor
      · intro toks hp _
        have : toks = [] := by
          rw [parseFmtFuel] at hp
          simp at hp
          exact hp
        subst this
        exact ⟨rfl, rfl⟩
      · intro acc toks _ hp _
        rw [parseFmtFuel] at hp
        simp at hp
    | cons c rest =>
      have hrest : rest.length ≤ fuel := by simpa using hcs
      constructor
      · -- scanning state
        intro toks hp hl
        rw [parseFmtFuel_false_step] at hp
        by_cases hob : c = '\x7b'
        · rw [if_pos hob] at hp
          cases rest with
          | nil => cases hp
          | cons d rest2 =>
            have hp2 : (if d = '\x7b' then
                (parseFmtFuel fuel rest2 false []).map (fun ts => FmtTok.lit '\x7b' :: ts)
              else parseFmtFuel fuel (d :: rest2) true []) = some toks := hp
            by_cases hdb : d = '\x7b'
            · rw [if_pos hdb] at hp2
              cases hres : parseFmtFuel fuel rest2 false [] with
              | none => rw [hres] at hp2; cases hp2
              | some ts =>
                rw [hres] at hp2
                simp at hp2
                subst hp2
                exact absurd (Or.inl rfl) (litOk_lit _ _ hl)
            · rw [if_neg hdb] at hp2
              rcases (ih (d :: rest2) (by simpa using hrest)).2 [] toks rfl hp2 hl with
                ⟨w, toks2, heq, hw, htoks, hl2, hf2, hne⟩
              simp only [List.reverse_nil, List.nil_append] at htoks hne
              subst htoks
              constructor
              · show '\x7b' :: ((List.asString w).data ++ '\x7d' :: toksText toks2) = _
                rw [hob, heq]
                rfl
              · show (((!(w = [])) && w.all isWordChar) && fieldOk toks2) = true
                rw [hf2, hw]
                simp [hne]
        · rw [if_neg hob] at hp
          by_cases hcb : c = '\x7d'
          · rw [if_pos hcb] at hp
            cases rest with
            | nil => cases hp
            | cons d rest2 =>
              have hp2 : (if d = '\x7d' then
                  (parseFmtFuel fuel rest2 false []).map (fun ts => FmtTok.lit '\x7d' :: ts)
                else none) = some toks := hp
              by_cases hdb : d = '\x7d'
              · rw [if_pos hdb] at hp2
                cases hres : parseFmtFuel fuel rest2 false [] with
                | none => rw [hres] at hp2; cases hp2
                | some ts =>
                  rw [hres] at hp2
                  simp at hp2
                  subst hp2
                  exact absurd (Or.inr rfl) (litOk_lit _ _ hl)
              · rw [if_neg hdb] at hp2
                cases hp2
          · rw [if_neg hcb] at hp
            cases hres : parseFmtFuel fuel rest false [] with
            | none => rw [hres] at hp; cases hp
            | some ts =>
              rw [hres] at hp
              simp at hp
              subst hp
              have hlts : litOk ts = true := by
                rw [litOk, Bool.and_eq_true] at hl
                exact hl.2
              rcases (ih rest hrest).1 ts hres hlts with ⟨htext, hfield⟩
              refine ⟨?_, ?_⟩
              · rw [toksText_lit, htext]
              · exact hfield
      · -- in-field state
        intro acc toks hacc hp hl
        rw [parseFmtFuel_true_step] at hp
        by_cases hcb : c = '\x7d'
        · rw [if_pos hcb] at hp
          by_cases hae : acc = []
          · rw [if_pos hae] at hp; cases hp
          · rw [if_neg hae] at hp
            by_cases had : acc.all Char.isDigit
            · rw [if_pos had] at hp; cases hp
            · rw [if_neg had] at hp
              cases hres : parseFmtFuel fuel rest false [] with
              | none => rw [hres] at hp; cases hp
              | some ts =>
                rw [hres] at hp
                simp at hp
                subst hp
                have hlts : litOk ts = true := hl
                rcases (ih rest hrest).1 ts hres hlts with ⟨htext, hfield⟩
                refine ⟨[], ts, ?_, rfl, ?_, hlts, hfield, ?_⟩
                · rw [htext, hcb]
                  rfl
                · rw [List.append_nil]
                · rw [List.append_nil]
                  intro hrev
                  exact hae (by simpa using congrArg List.reverse hrev)
        · rw [if_neg hcb] at hp
          by_cases hw : isWordChar c
          · rw [if_pos hw] at hp
            have hacc2 : (c :: acc).all isWordChar = true := by
              rw [List.all_cons, hw, hacc]
              rfl
            rcases (ih rest hrest).2 (c :: acc) toks hacc2 hp hl with
              ⟨w, toks2, heq, hwall, htoks, hl2, hf2, hne⟩
            refine ⟨c :: w, toks2, ?_, ?_, ?_, hl2, hf2, ?_⟩
            · rw [heq]
              rfl
            · rw [List.all_cons, hw, hwall]
              rfl
            · rw [htoks]
              congr 1
              rw [List.reverse_cons, List.append_assoc]
              rfl
            · simp
          · rw [if_neg hw] at hp
            cases hp

theorem extractParamsSt_field : ∀ (w acc rest : List Char),
    w.all isWordChar = true → acc.reverse ++ w ≠ [] →
    extractParamsSt (w ++ '\x7d' :: rest) true acc =
      List.asString (acc.reverse ++ w) :: extractParamsSt rest false [] := by
  intro w
  induction w with
  | nil =>
    intro acc rest _ hne
    rw [List.append_nil] at hne
    have hae : acc ≠ [] := by
      intro h
      exact hne (by rw [h]; rfl)
    show extractParamsSt ('\x7d' :: rest) true acc = _
    rw [extractParamsSt, if_pos rfl, if_neg (by simpa using hae), List.append_nil]
  | cons c w' ih =>
    intro acc rest hw hne
    rw [List.all_cons, Bool.and_eq_true] at hw
    have hcd : ¬(c = '\x7d') := by
      intro h
      rw [h] at hw
      exact absurd hw.1 (by decide)
    show extractParamsSt (c :: (w' ++ '\x7d' :: rest)) true acc = _
    rw [extractParamsSt, if_neg hcd, if_pos hw.1]
    have hne' : (c :: acc).reverse ++ w' ≠ [] := by
      rw [List.reverse_cons, List.append_assoc]
      simp
    rw [ih (c :: acc) rest hw.2 hne']
    rw [List.reverse_cons, List.append_assoc]
    rfl

theorem litOk_cons (t : FmtTok) (rest : List FmtTok) (h : litOk (t :: rest) = true) :
    litOk rest = true := by
  cases t with
  | lit c =>
    rw [litOk, Bool.and_eq_true] at h
    exact h.2
  | field k => exact h

theorem extract_toksText : ∀ (toks : List FmtTok), litOk toks = true → fieldOk toks = true →
    extractParamsSt (toksText toks) false [] = fieldNamesOf toks := by
  intro toks
  induction toks with
  | nil => intro _ _; rfl
  | cons t rest ih =>
    intro hl hf
    cases t with
    | lit c =>
      have hcb : ¬(c = '\x7b') := fun hc => litOk_lit c rest hl (Or.inl hc)
      show extractParamsSt (c :: toksText rest) false [] = fieldNamesOf rest
      rw [extractParamsSt, if_neg hcb]
      exact ih (litOk_cons _ _ hl) hf
    | field k =>
      rw [fieldOk, Bool.and_eq_true, Bool.and_eq_true] at hf
      obtain ⟨⟨hk1, hk2⟩, hf2⟩ := hf
      have hkne : k.data ≠ [] := by simpa using hk1
      show extractParamsSt ('\x7b' :: (k.data ++ '\x7d' :: toksText rest)) false [] =
        k :: fieldNamesOf rest
      rw [extractParamsSt, if_pos rfl]
      rw [extractParamsSt_field k.data [] (toksText rest) hk2 (by simpa using hkne)]
      rw [ih hl hf2]
      rfl

theorem lookupParam_mem : ∀ (m : List (String × String)) (k v : String),
    lookupParam m k = some v → (k, v) ∈ m := by
  intro m
  induction m with
  | nil => intro k v h; cases h
  | cons kv rest ih =>
    intro k v h
    rw [lookupParam] at h
    by_cases hk : k = kv.1
    · rw [if_pos hk] at h
      cases h
      rw [hk]
      exact List.mem_cons_self kv rest
    · rw [if_neg hk] at h
      exact List.mem_cons_of_mem kv (ih k v h)

theorem renderToks_ok : ∀ (m : List (String × String)) (toks : List FmtTok),
    (∀ k ∈ fieldNamesOf toks, (lookupParam m k).isSome = true) →
    ∃ s, renderToks m toks = .ok s := by
  intro m toks
  induction toks with
  | nil => intro _; exact ⟨"", rfl⟩
  | cons t rest ih =>
    intro hcov
    cases t with
    | lit c =>
      obtain ⟨s, hs⟩ := ih (fun k hk => hcov k hk)
      refine ⟨List.asString [c] ++ s, ?_⟩
      simp only [renderToks, hs]
    | field k =>
      have hk : (lookupParam m k).isSome = true := hcov k (List.mem_cons_self k (fieldNamesOf rest))
      obtain ⟨v, hv⟩ := Option.isSome_iff_exists.mp hk
      obtain ⟨s, hs⟩ := ih (fun k2 hk2 => hcov k2 (List.mem_cons_of_mem k hk2))
      refine ⟨v ++ s, ?_⟩
      simp only [renderToks, hv, hs]

theorem renderToks_no_brace : ∀ (m : List (String × String)) (toks : List FmtTok) (s : String),
    renderToks m toks = .ok s → litOk toks = true →
    (∀ kv ∈ m, ∀ c ∈ kv.2.data, ¬(c = '\x7b')) →
    ∀ c ∈ s.data, ¬(c = '\x7b') := by
  intro m toks
  induction toks with
  | nil =>
    intro s h _ _ c hc
    cases h
    cases hc
  | cons t rest ih =>
    intro s h hl hm c hc
    cases t with
    | lit d =>
      rw [renderToks] at h
      cases hres : renderToks m rest with
      | error e => rw [hres] at h; cases h
      | ok s2 =>
        rw [hres] at h
        cases h
        rw [String.data_append] at hc
        rcases List.mem_append.mp hc with h1 | h1
        · have h1b : c ∈ [d] := h1
          have : c = d := by simpa using h1b
          subst this
          exact fun hcb => litOk_lit c rest hl (Or.inl hcb)
        · exact ih s2 hres (litOk_cons _ _ hl) hm c h1
    | field k =>
      rw [renderToks] at h
      cases hlk : lookupParam m k with
      | none => rw [hlk] at h; cases h
      | some v =>
        rw [hlk] at h
        cases hres : renderToks m rest with
        | error e => rw [hres] at h; cases h
        | ok s2 =>
          rw [hres] at h
          cases h
          rw [String.data_append] at hc
          rcases List.mem_append.mp hc with h1 | h1
          · exact hm (k, v) (lookupParam_mem m k v hlk) c h1
          · exact ih s2 hres hl hm c h1

theorem renderToks_congr : ∀ (m m2 : List (String × String)) (toks : List FmtTok),
    (∀ k ∈ fieldNamesOf toks, lookupParam m2 k = lookupParam m k) →
    renderToks m2 toks = renderToks m toks := by
  intro m m2 toks
  induction toks with
  | nil => intro _; rfl
  | cons t rest ih =>
    intro hagree
    cases t with
    | lit c =>
      simp only [renderToks, ih (fun k hk => hagree k hk)]
    | field k =>
      simp only [renderToks, hagree k (List.mem_cons_self k (fieldNamesOf rest)),
        ih (fun k2 hk2 => hagree k2 (List.mem_cons_of_mem k hk2))]

theorem renderToks_first_missing : ∀ (m : List (String × String)) (toks : List FmtTok)
    (pre : List String) (x : String) (suf : List String),
    fieldNamesOf toks = pre ++ x :: suf →
    (∀ y ∈ pre, (lookupParam m y).isSome = true) →
    lookupParam m x = none →
    renderToks m toks = .error (.keyError x) := by
  intro m toks
  induction toks with
  | nil =>
    intro pre x suf h _ _
    cases pre <;> cases h
  | cons t rest ih =>
    intro pre x suf h hpre hx
    cases t with
    | lit c =>
      simp only [renderToks, ih pre x suf h hpre hx]
    | field k =>
      cases pre with
      | nil =>
        have hcons : k :: fieldNamesOf rest = x :: suf := h
        injection hcons with h1 h2
        subst h1
        simp only [renderToks, hx]
      | cons p0 pre' =>
        have hcons : k :: fieldNamesOf rest = p0 :: (pre' ++ x :: suf) := h
        injection hcons with h1 h2
        have hk : (lookupParam m k).isSome = true := by
          rw [h1]
          exact hpre p0 (List.mem_cons_self p0 pre')
        obtain ⟨v, hv⟩ := Option.isSome_iff_exists.mp hk
        simp only [renderToks, hv,
          ih pre' x suf h2 (fun y hy => hpre y (List.mem_cons_of_mem p0 hy)) hx]

/-- C5 (amended): for a well-formed template - `str.format` parses it and it
contains no doubled-brace escapes - in which every `\x7bidentifier\x7d`
placeholder found by scanning the raw template text has a matching key, and
whose substituted values contain no opening brace, `get_template_with_params`'s
formatting succeeds, the result contains no literal `\x7bkey\x7d` token for any
key, and entries of the map that match no placeholder are ignored: any map
agreeing on the scanned placeholder names produces the same output.  (The
well-formedness and brace-free-value hypotheses are forced by the
counterexample: a doubled-brace escape renders to a literal brace token.) -/
theorem getWithParams_success :
    ∀ (template : String) (m : List (String × String)) (toks : List FmtTok),
      parseFmt template.data = some toks →
      litOk toks = true →
      (∀ k ∈ extract_template_params template, (lookupParam m k).isSome = true) →
      (∀ kv ∈ m, ∀ c ∈ kv.2.data, ¬(c = '\x7b')) →
      ∃ out, format_template template m = .ok out ∧
        (∀ k : String, ¬ ('\x7b' :: (k.data ++ ['\x7d'])) <:+: out.data) ∧
        (∀ m2, (∀ k ∈ extract_template_params template, lookupParam m2 k = lookupParam m k) →
          format_template template m2 = .ok out) := by
  intro tpl m toks hp hl hcov hnb
  obtain ⟨htext, hfield⟩ :=
    (parseFmt_inverse tpl.data.length tpl.data (le_refl _)).1 toks hp hl
  have hnames : extract_template_params tpl = fieldNamesOf toks := by
    show extractParamsSt tpl.data false [] = _
    rw [← htext]
    exact extract_toksText toks hl hfield
  have hcov2 : ∀ k ∈ fieldNamesOf toks, (lookupParam m k).isSome = true := by
    rw [← hnames]
    exact hcov
  obtain ⟨s, hs⟩ := renderToks_ok m toks hcov2
  have hpy : pyFormat tpl m = .ok s := by
    unfold pyFormat
    rw [hp]
    exact hs
  refine ⟨s, ?_, ?_, ?_⟩
  · unfold format_template
    rw [hpy]
  · intro k hinf
    have hmem : '\x7b' ∈ s.data := hinf.subset (List.mem_cons_self _ _)
    exact renderToks_no_brace m toks s hs hl hnb '\x7b' hmem rfl
  · intro m2 hagree
    have hagree2 : ∀ k ∈ fieldNamesOf toks, lookupParam m2 k = lookupParam m k := by
      rw [← hnames]
      exact hagree
    have hpy2 : pyFormat tpl m2 = .ok s := by
      unfold pyFormat
      rw [hp]
      show renderToks m2 toks = Except.ok s
      rw [renderToks_congr m m2 toks hagree2]
      exact hs
    unfold format_template
    rw [hpy2]

/-- Counterexample to C5 as stated: in the template consisting of the doubled
braces around `a`, the raw-text scan finds the placeholder `a` and the map
supplies it, yet `str.format` treats the doubled braces as escapes and the
successful result is the literal token `\x7ba\x7d` for the matched key `a`. -/
theorem getWithParams_success_counterexample :
    extract_template_params ("\x7b\x7ba\x7d\x7d") = ["a"] ∧
    (lookupParam [("a", "x")] ("a")).isSome = true ∧
    format_template ("\x7b\x7ba\x7d\x7d") [("a", "x")] = .ok ("\x7ba\x7d") ∧
    ('\x7b' :: (("a" : String).data ++ ['\x7d'])) <:+: ("\x7ba\x7d" : String).data :=
  ⟨rfl, rfl, rfl, ⟨[], [], by simp⟩⟩

/-- Witness for C5: the success clause at a concrete template and map. -/
theorem getWithParams_success_witness :
    ∃ out, format_template ("\x7ba\x7d!") [("a", "x")] = .ok out ∧
      (∀ k : String, ¬ ('\x7b' :: (k.data ++ ['\x7d'])) <:+: out.data) ∧
      (∀ m2, (∀ k ∈ extract_template_params ("\x7ba\x7d!"),
          lookupParam m2 k = lookupParam [("a", "x")] k) →
        format_template ("\x7ba\x7d!") m2 = .ok out) :=
  getWithParams_success ("\x7ba\x7d!") [("a", "x")]
    [FmtTok.field ("a"), FmtTok.lit '!'] rfl rfl
    (by intro k hk; fin_cases hk; rfl)
    (by intro kv hkv; fin_cases hkv; simp)

/-- C6 (amended): for a well-formed template (parsed, escape-free) whose
raw-text placeholder scan is `pre ++ x :: suf` where every placeholder before
`x` has a matching key and `x` has none - in particular whenever `x` is the
only missing placeholder - the formatting of `get_template_with_params` fails
with the missing-parameter error naming `x` and carrying the placeholder list
scanned from the raw template text.  (Well-formedness is forced by the
counterexample: with doubled braces around `x` the call succeeds instead of
failing; and `str.format` names the first missing key in template order, so
`x` must be the first missing one.) -/
theorem getWithParams_missing :
    ∀ (template : String) (m : List (String × String)) (toks : List FmtTok)
      (pre : List String) (x : String) (suf : List String),
      parseFmt template.data = some toks →
      litOk toks = true →
      extract_template_params template = pre ++ x :: suf →
      (∀ y ∈ pre, (lookupParam m y).isSome = true) →
      lookupParam m x = none →
      format_template template m =
        .error (.missingParameter x (extract_template_params template)) := by
  intro tpl m toks pre x suf hp hl hscan hpre hx
  obtain ⟨htext, hfield⟩ :=
    (parseFmt_inverse tpl.data.length tpl.data (le_refl _)).1 toks hp hl
  have hnames : extract_template_params tpl = fieldNamesOf toks := by
    show extractParamsSt tpl.data false [] = _
    rw [← htext]
    exact extract_toksText toks hl hfield
  have hdec : fieldNamesOf toks = pre ++ x :: suf := by
    rw [← hnames]
    exact hscan
  have hrender : renderToks m toks = .error (.keyError x) :=
    renderToks_first_missing m toks pre x suf hdec hpre hx
  have hpy : pyFormat tpl m = .error (.keyError x) := by
    unfold pyFormat
    rw [hp]
    exact hrender
  unfold format_template
  rw [hpy]

/-- Counterexample to C6 as stated: the template consisting of doubled braces
around `x` contains the placeholder substring `\x7bx\x7d` (the raw-text scan
finds `x`), the map lacks `x`, yet `get_template_with_params` succeeds with
the literal text `\x7bx\x7d` instead of failing with a missing-parameter
error. -/
theorem getWithParams_missing_counterexample :
    extract_template_params ("\x7b\x7bx\x7d\x7d") = ["x"] ∧
    lookupParam ([] : List (String × String)) ("x") = none ∧
    format_template ("\x7b\x7bx\x7d\x7d") [] = .ok ("\x7bx\x7d") :=
  ⟨rfl, rfl, rfl⟩

/-- Witness for C6: the missing-parameter failure at a concrete template. -/
theorem getWithParams_missing_witness :
    format_template ("\x7ba\x7d") [] =
      .error (.missingParameter ("a") (extract_template_params ("\x7ba\x7d"))) :=
  getWithParams_missing ("\x7ba\x7d") [] [FmtTok.field ("a")] [] ("a") [] rfl rfl rfl
    (by intro y hy; cases hy) rfl

/-! ## Length estimation (`_estimate_translated_length`)

Python floats are modelled as exact rationals: the ratio values reachable by
the heuristic (0.5 plus or minus tenths, clamped) and its threshold
comparisons are exactly representable decimals, so the rational model follows
the source arithmetic step by step.  `int(x)` on a non-negative value is
truncation toward zero, i.e. the floor.  Regex classes are modelled over
ASCII, matching the ASCII texts the claims quantify over. -/

/-- Maximal runs of word characters in the text (`cur` is the current run,
reversed). -/
def wordRuns : List Char → List Char → List (List Char)
  | [], cur => if cur = [] then [] else [cur.reverse]
  | c :: rest, cur =>
    if isWordChar c then wordRuns rest (c :: cur)
    else if cur = [] then wordRuns rest [] else cur.reverse :: wordRuns rest []

/-- `[a-zA-Z]` (ASCII letters). -/
def isAsciiAlpha (c : Char) : Bool := c.isAlpha

/-- `re.findall(r'\b[a-zA-Z]+\b', text)`: the maximal word-character runs
consisting entirely of ASCII letters (a run touching a digit or underscore
has no word boundary inside it, so it yields no match). -/
def findWords (cs : List Char) : List (List Char) :=
  (wordRuns cs []).filter (fun w => w.all isAsciiAlpha)

/-- The character class `[0-9@#$%&*+=<>]`. -/
def isDigitSymbol (c : Char) : Bool :=
  c.isDigit || c = '@' || c = '#' || c = '$' || c = '%' ||
    c = '&' || c = '*' || c = '+' || c = '=' || c = '<' || c = '>'

/-- `DocumentProcessor._adjust_ratio_by_text_features`: adjust the base ratio
by word density, average word length and digit/symbol density, then clamp to
[0.3, 0.8]. -/
def adjust_ratio_by_text_features (text : String) (base_ratio : ℚ) : ℚ :=
  let words := findWords text.data
  let total_chars := strLen text
  let ratio1 :=
    if words ≠ [] ∧ 0 < total_chars then
      let word_density : ℚ := (words.length : ℚ) / (total_chars : ℚ)
      let avg_word_len : ℚ := (((words.map List.length).sum : ℕ) : ℚ) / (words.length : ℚ)
      let r1 := if 15/100 < word_density then base_ratio - 1/10 else base_ratio
      if 7 < avg_word_len then r1 + 1/10 else r1
    else base_ratio
  let digit_symbol_ratio : ℚ :=
    if 0 < total_chars then ((text.data.filter isDigitSymbol).length : ℚ) / (total_chars : ℚ)
    else 0
  let ratio2 := if 2/10 < digit_symbol_ratio then ratio1 + 2/10 else ratio1
  max (3/10) (min ratio2 (8/10))

/-- Python `int(x)` for a non-negative rational: truncation toward zero. -/
def ratioTrunc (q : ℚ) : ℕ := q.num.toNat / q.den

/-- `DocumentProcessor._estimate_translated_length`: zero for blank input,
otherwise `max(100, int(len * ratio))` with the adjusted ratio. -/
def estimate_translated_length (english_text : String) : ℕ :=
  if pyStrip english_text = "" then 0
  else
    max 100 (ratioTrunc ((strLen english_text : ℚ) *
      adjust_ratio_by_text_features english_text (1/2)))

theorem ratioTrunc_eq_floor (q : ℚ) (h : 0 ≤ q) : (ratioTrunc q : ℤ) = ⌊q⌋ := by
  rw [Rat.floor_def, ratioTrunc, Int.ofNat_ediv]
  rw [Int.toNat_of_nonneg (Rat.num_nonneg.mpr h)]

theorem ratioTrunc_mono (q r : ℚ) (hq : 0 ≤ q) (hle : q ≤ r) :
    ratioTrunc q ≤ ratioTrunc r := by
  have h1 := ratioTrunc_eq_floor q hq
  have h2 := ratioTrunc_eq_floor r (le_trans hq hle)
  have h3 := Int.floor_mono hle
  omega

theorem adjust_ratio_bounds (text : String) (base_ratio : ℚ) :
    3/10 ≤ adjust_ratio_by_text_features text base_ratio ∧
      adjust_ratio_by_text_features text base_ratio ≤ 8/10 := by
  constructor
  · exact le_max_left _ _
  · exact max_le (by norm_num) (min_le_right _ _)

/-- C7 (amended): the length estimator is total by construction; it returns 0
for every input whose `strip()` is empty (not only the empty string - the
whitespace-only counterexample forces this reading of `empty input`); for
every other input it returns `max(100, int(len * ratio))` with the
feature-adjusted ratio clamped to [0.3, 0.8], so the truncated product lies
between the truncations of `0.3 * len` and `0.8 * len`. -/
theorem length_estimator_spec :
    ∀ (s : String),
      (pyStrip s = "" → estimate_translated_length s = 0) ∧
      (pyStrip s ≠ "" →
        estimate_translated_length s =
          max 100 (ratioTrunc ((strLen s : ℚ) * adjust_ratio_by_text_features s (1/2))) ∧
        3/10 ≤ adjust_ratio_by_text_features s (1/2) ∧
        adjust_ratio_by_text_features s (1/2) ≤ 8/10 ∧
        ratioTrunc ((3/10 : ℚ) * (strLen s : ℚ)) ≤
          ratioTrunc ((strLen s : ℚ) * adjust_ratio_by_text_features s (1/2)) ∧
        ratioTrunc ((strLen s : ℚ) * adjust_ratio_by_text_features s (1/2)) ≤
          ratioTrunc ((8/10 : ℚ) * (strLen s : ℚ))) := by
  intro s
  constructor
  · intro h
    rw [estimate_translated_length, if_pos h]
  · intro h
    obtain ⟨hlo, hhi⟩ := adjust_ratio_bounds s (1/2)
    have hlen : (0 : ℚ) ≤ (strLen s : ℚ) := by positivity
    refine ⟨?_, hlo, hhi, ?_, ?_⟩
    · rw [estimate_translated_length, if_neg h]
    · refine ratioTrunc_mono _ _ (by positivity) ?_
      rw [mul_comm (3/10 : ℚ)]
      exact mul_le_mul_of_nonneg_left hlo hlen
    · refine ratioTrunc_mono _ _ ?_ ?_
      · have h03 : (0 : ℚ) ≤ adjust_ratio_by_text_features s (1/2) := le_trans (by norm_num) hlo
        positivity
      · rw [mul_comm (8/10 : ℚ)]
        exact mul_le_mul_of_nonneg_left hhi hlen

/-- Counterexample to C7 as stated: the single-space input is non-empty, yet
the estimator returns 0 because the source tests `english_text.strip()`, while
the claimed formula `max(100, ...)` is always at least 100. -/
theorem length_estimator_counterexample :
    (" " : String) ≠ "" ∧
    estimate_translated_length (" ") = 0 ∧
    100 ≤ max 100 (ratioTrunc ((strLen (" ") : ℚ) *
      adjust_ratio_by_text_features (" ") (1/2))) :=
  ⟨by decide, rfl, Nat.le_max_left 100 _⟩

/-- Witness for C7: the non-blank clause applied at a concrete input. -/
theorem length_estimator_spec_witness :
    estimate_translated_length ("ab") =
      max 100 (ratioTrunc ((strLen ("ab") : ℚ) *
        adjust_ratio_by_text_features ("ab") (1/2))) ∧
    3/10 ≤ adjust_ratio_by_text_features ("ab") (1/2) ∧
    adjust_ratio_by_text_features ("ab") (1/2) ≤ 8/10 ∧
    ratioTrunc ((3/10 : ℚ) * (strLen ("ab") : ℚ)) ≤
      ratioTrunc ((strLen ("ab") : ℚ) * adjust_ratio_by_text_features ("ab") (1/2)) ∧
    ratioTrunc ((strLen ("ab") : ℚ) * adjust_ratio_by_text_features ("ab") (1/2)) ≤
      ratioTrunc ((8/10 : ℚ) * (strLen ("ab") : ℚ)) :=
  (length_estimator_spec ("ab")).2 (by decide)

/-! ## Batch translation (`batch_translate`) -/

/-- One item of the batch: the engine's translation, or - when the per-item
`except` handler catches an exception - the failure marker embedding the
original text.  `engine` is the outcome oracle for `self.translate_text` on
that item. -/
def batch_item_result (engine : String → Except Unit String) (text : String) : String :=
  match engine text with
  | .ok r => r
  | .error _ => "[翻译失败] " ++ text

/-- The loop of `batch_translate` (lines 342-362): process the texts in input
order with per-item failure isolation, sleeping between consecutive items but
not after the last (`time.sleep(1)` guarded by `i < total_texts`); the `Nat`
counts the pacing sleeps. -/
def batch_loop (engine : String → Except Unit String) : List String → List String × Nat
  | [] => ([], 0)
  | [t] => ([batch_item_result engine t], 0)
  | t :: rest =>
    let r := batch_loop engine rest
    (batch_item_result engine t :: r.1, r.2 + 1)

/-- `DocumentProcessor.batch_translate`: empty input short-circuits to the
empty result list. -/
def batch_translate (engine : String → Except Unit String) (texts : List String) :
    List String × Nat :=
  if texts = [] then ([], 0) else batch_loop engine texts

theorem batch_loop_eq : ∀ (engine : String → Except Unit String) (texts : List String),
    batch_loop engine texts = (texts.map (batch_item_result engine), texts.length - 1) := by
  intro engine texts
  induction texts with
  | nil => rfl
  | cons t rest ih =>
    cases rest with
    | nil => rfl
    | cons u rest2 =>
      show (batch_item_result engine t :: (batch_loop engine (u :: rest2)).1,
        (batch_loop engine (u :: rest2)).2 + 1) = _
      rw [ih]
      simp

/-- C8: the batch operation returns a list of the same length as the input in
input order, each position holding that item's translation or, when the
engine fails there, that item's failure marker containing the original text
(so a per-item failure does not stop later items), and the pacing delay is
awaited exactly once between consecutive items and not after the last:
`length - 1` sleeps in total. -/
theorem batch_translate_spec :
    ∀ (engine : String → Except Unit String) (texts : List String),
      (batch_translate engine texts).1 = texts.map (batch_item_result engine) ∧
      (batch_translate engine texts).1.length = texts.length ∧
      (∀ t, batch_item_result engine t =
        (match engine t with
          | .ok r => r
          | .error _ => "[翻译失败] " ++ t)) ∧
      (batch_translate engine texts).2 = texts.length - 1 := by
  intro engine texts
  have hb : batch_translate engine texts = (texts.map (batch_item_result engine),
      texts.length - 1) := by
    rw [batch_translate]
    by_cases h : texts = []
    · rw [if_pos h, h]
      rfl
    · rw [if_neg h, batch_loop_eq]
  refine ⟨?_, ?_, ?_, ?_⟩
  · rw [hb]
  · rw [hb]
    simp
  · intro t
    rfl
  · rw [hb]

/-! ## Summary extraction and heading generation -/

/-- A double or single quote. -/
def isQuoteChar (c : Char) : Bool := c = '"' || c = '\x27'

/-- Drop a single leading quote character. -/
def dropLeadQuote : List Char → List Char
  | [] => []
  | c :: r => if isQuoteChar c then r else c :: r

/-- `re.sub(r'^["\x27]|["\x27]$', '', t)`: the regex matches once at the start
and once at the end of the original string (non-overlapping, so a sole quote
character is removed only once). -/
def stripEdgeQuotes (s : String) : String :=
  match s.data with
  | [] => ""
  | [c] => if isQuoteChar c then "" else s
  | _ :: _ :: _ =>
    List.asString ((dropLeadQuote ((dropLeadQuote s.data).reverse)).reverse)

/-- Python `str.split()` with no argument: maximal non-whitespace runs. -/
def pySplit (s : String) : List String := pySplitRuns s.data []
where
  pySplitRuns : List Char → List Char → List String
    | [], cur => if cur = [] then [] else [List.asString cur.reverse]
    | c :: rest, cur =>
      if pyIsSpace c then
        if cur = [] then pySplitRuns rest []
        else List.asString cur.reverse :: pySplitRuns rest []
      else pySplitRuns rest (c :: cur)

/-- Python `" ".join(words)`. -/
def joinWords : List String → String
  | [] => ""
  | [w] => w
  | w :: ws => w ++ " " ++ joinWords ws

/-- `DocumentProcessor._validate_summary`: strip edge quotes from the trimmed
text, keep the first `max_words` whitespace-separated words, re-join. -/
def validate_summary (text : String) (max_words : Nat) : String :=
  joinWords ((pySplit (stripEdgeQuotes (pyStrip text))).take max_words)

/-- `DocumentProcessor._fallback_summary`: the first sentence (prefix before
any of `.!?`), trimmed, cut to `max_words` words. -/
def fallback_summary (text : String) (max_words : Nat) : String :=
  joinWords ((pySplit (pyStrip
    (List.asString (text.data.takeWhile
      (fun c => !(c = '.' || c = '!' || c = '?')))))).take max_words)

/-- `DocumentProcessor.extract_summary`: blank input yields the empty string;
with a rendered prompt (`tmplRes`) and an API response (`apiRes`) the returned
content is validated; any failure in either falls back to the first-sentence
heuristic. -/
def extract_summary (tmplRes apiRes : Except Unit String) (text : String)
    (max_words : Nat) : String :=
  if pyStrip text = "" then ""
  else
    match tmplRes, apiRes with
    | .ok _, .ok content => validate_summary content max_words
    | .ok _, .error _ => fallback_summary text max_words
    | .error _, _ => fallback_summary text max_words

/-- `DocumentProcessor.generate_heading`: print a progress line (pure side
effect, not modelled) and delegate to `extract_summary` with the same text
and word bound. -/
def generate_heading (tmplRes apiRes : Except Unit String) (text : String)
    (max_words : Nat) : String :=
  extract_summary tmplRes apiRes text max_words

/-- C10: `generate_heading` is a pure delegation to `extract_summary` with
identical arguments under the same template and API outcomes, so the two
public operations are extensionally equal. -/
theorem generate_heading_delegates :
    ∀ (tmplRes apiRes : Except Unit String) (text : String) (max_words : Nat),
      generate_heading tmplRes apiRes text max_words =
        extract_summary tmplRes apiRes text max_words :=
  fun _ _ _ _ => rfl

/-! ## Template store state (`PromptsManager`)

The backing prompts directory is modelled as association lists: `texts` maps a
template name to the contents of `<name>.txt`, `metas` maps a name to its
optional metadata file, whose value is `.ok m` for well-formed JSON and
`.error ()` for a file that makes `json.load` raise.  The manager state
carries the four mutable attributes of the Python object.  Python `dict` and
`set` mutation is modelled by first-match association-list update. -/

structure TemplateFS where
  texts : List (String × String)
  metas : List (String × Except Unit String)

structure PromptsManager where
  enable_lazy_load : Bool
  templates : List (String × String)
  template_metadata : List (String × String)
  usage_stats : List (String × Nat)
  loaded_templates : List String

/-- Replace the first binding of `k` (or append one): dict assignment. -/
def upsert (k : String) (v : β) : List (String × β) → List (String × β)
  | [] => [(k, v)]
  | kv :: rest => if kv.1 = k then (k, v) :: rest else kv :: upsert k v rest

/-- Remove every binding of `k`: dict `del` (keys are unique in a dict). -/
def eraseKey (k : String) (l : List (String × β)) : List (String × β) :=
  l.filter (fun kv => !(kv.1 = k))

/-- Set insertion (`set.add`). -/
def insertName (n : String) (l : List String) : List String :=
  if n ∈ l then l else l ++ [n]

/-- Errors of the store operations. -/
inductive PMError where
  | notFound       -- FileNotFoundError from `_load_single_template`
  | loadError      -- ValueError wrapping a read/metadata failure
  | unknownTemplate  -- ValueError for a name outside the store
  | missingParameter (key : String) (required : List String)
  | formatFailure
deriving DecidableEq, Repr

/-- `PromptsManager._load_single_template`: raise `notFound` when the text
file is absent; otherwise store the stripped content, then try the metadata
file - a malformed one raises after `templates` was already mutated, before
the name joins the loaded set. -/
def load_single_template (fs : TemplateFS) (name : String) (st : PromptsManager) :
    PromptsManager × Except PMError Unit :=
  match List.lookup name fs.texts with
  | none => (st, .error .notFound)
  | some content =>
    let st1 := { st with templates := upsert name (pyStrip content) st.templates }
    match List.lookup name fs.metas with
    | none =>
      ({ st1 with loaded_templates := insertName name st1.loaded_templates }, .ok ())
    | some (.ok m) =>
      ({ st1 with template_metadata := upsert name m st1.template_metadata,
                  loaded_templates := insertName name st1.loaded_templates }, .ok ())
    | some (.error _) => (st1, .error .loadError)

/-- Record a successful fetch: `usage_stats[name] = usage_stats.get(name, 0) + 1`. -/
def bump_usage (name : String) (st : PromptsManager) : PromptsManager :=
  { st with usage_stats :=
      upsert name ((List.lookup name st.usage_stats).getD 0 + 1) st.usage_stats }

/-- Second half of `get_template`, after the optional lazy load: fail when
the name is still absent, otherwise record the fetch and return the text. -/
def get_template_finish (name : String) (st1 : PromptsManager) :
    PromptsManager × Except PMError String :=
  match List.lookup name st1.templates with
  | none => (st1, .error .unknownTemplate)
  | some t => (bump_usage name st1, .ok t)

/-- `PromptsManager.get_template`: lazily load an absent name, fail with the
available-template message when it is still absent, and count the successful
fetch in `usage_stats`. -/
def get_template (fs : TemplateFS) (name : String) (st : PromptsManager) :
    PromptsManager × Except PMError String :=
  match (if st.enable_lazy_load ∧ (List.lookup name st.templates).isNone
    then load_single_template fs name st
    else (st, .ok ())) with
  | (st1, .error e) => (st1, .error e)
  | (st1, .ok _) => get_template_finish name st1

/-- Second half of `get_template_with_params`: lift the formatting result of
the fetched text to the store's error type, leaving the state alone. -/
def format_stage (tpl : String) (m : List (String × String)) (st1 : PromptsManager) :
    PromptsManager × Except PMError String :=
  match format_template tpl m with
  | .ok s => (st1, .ok s)
  | .error (.missingParameter k required) => (st1, .error (.missingParameter k required))
  | .error .formatFailure => (st1, .error .formatFailure)

/-- `PromptsManager.get_template_with_params`: fetch (which may lazily load
and bumps the usage count), then format with the parameter map. -/
def get_template_with_params (fs : TemplateFS) (name : String)
    (m : List (String × String)) (st : PromptsManager) :
    PromptsManager × Except PMError String :=
  match get_template fs name st with
  | (st1, .error e) => (st1, .error e)
  | (st1, .ok tpl) => format_stage tpl m st1

/-- `PromptsManager._load_all_templates`: load every backing entry, swallowing
per-template failures. -/
def load_all_templates (fs : TemplateFS) (st : PromptsManager) : PromptsManager :=
  (fs.texts.map Prod.fst).foldl (fun s n => (load_single_template fs n s).1) st

/-- Drop one name from the template map, the metadata map and the loaded set
(the deletion block of `reload_templates` for a present name). -/
def purge (name : String) (st : PromptsManager) : PromptsManager :=
  { st with templates := eraseKey name st.templates,
            template_metadata := eraseKey name st.template_metadata,
            loaded_templates := st.loaded_templates.filter (fun x => !(x = name)) }

/-- Clear the three template structures (`reload_templates` with no name),
keeping the usage counts. -/
def clear_maps (st : PromptsManager) : PromptsManager :=
  { st with templates := [], template_metadata := [],
            loaded_templates := ([] : List String) }

/-- `PromptsManager.reload_templates` with a name: drop the one template from
all three structures, then reload it, printing (and swallowing) a failure. -/
def reload_one (fs : TemplateFS) (name : String) (st : PromptsManager) : PromptsManager :=
  (load_single_template fs name
    (if (List.lookup name st.templates).isSome then purge name st else st)).1

/-- `PromptsManager.reload_templates` with no name: clear everything, then in
lazy mode reload the previously loaded names, in eager mode reload the whole
directory; per-name failures are swallowed. -/
def reload_all (fs : TemplateFS) (st : PromptsManager) : PromptsManager :=
  if st.enable_lazy_load then
    (st.templates.map Prod.fst).foldl (fun s n => (load_single_template fs n s).1)
      (clear_maps st)
  else load_all_templates fs (clear_maps st)

/-- The backing store after `create_template` writes the text entry
(idempotently overwriting) and the optional metadata entry (written by
`json.dump`, hence well formed). -/
def create_fs (fs : TemplateFS) (name content : String) (metadata : Option String) :
    TemplateFS :=
  match metadata with
  | some m => { texts := upsert name content fs.texts,
                metas := upsert name (Except.ok m) fs.metas }
  | none => { fs with texts := upsert name content fs.texts }

/-- `PromptsManager.create_template`: write the backing entries, then in eager
mode load the template immediately; a load failure is caught and reported as
`false`. -/
def create_template (fs : TemplateFS) (name content : String) (metadata : Option String)
    (st : PromptsManager) : TemplateFS × PromptsManager × Bool :=
  if st.enable_lazy_load then (create_fs fs name content metadata, st, true)
  else
    match load_single_template (create_fs fs name content metadata) name st with
    | (st1, .ok _) => (create_fs fs name content metadata, st1, true)
    | (st1, .error _) => (create_fs fs name content metadata, st1, false)

/-- `PromptsManager.list_available_templates` (reads the directory only). -/
def list_available_templates (fs : TemplateFS) (st : PromptsManager) :
    List String × PromptsManager :=
  (fs.texts.map Prod.fst, st)

/-- `PromptsManager.list_loaded_templates` (reads `self.templates` only). -/
def list_loaded_templates (st : PromptsManager) : List String × PromptsManager :=
  (st.templates.map Prod.fst, st)

/-- `PromptsManager.__init__`: empty maps, then an eager instance preloads the
whole directory. -/
def init_manager (fs : TemplateFS) (enable_lazy_load : Bool) : PromptsManager :=
  if enable_lazy_load then ⟨enable_lazy_load, [], [], [], []⟩
  else load_all_templates fs ⟨enable_lazy_load, [], [], [], []⟩

/-- The loaded-set invariant: every name in `loaded_templates` has an entry in
`templates`. -/
def StoreInv (st : PromptsManager) : Prop :=
  ∀ n ∈ st.loaded_templates, (List.lookup n st.templates).isSome = true

/-- Per-name usage counts never decrease between two states. -/
def usageLe (st st2 : PromptsManager) : Prop :=
  ∀ n, (List.lookup n st.usage_stats).getD 0 ≤ (List.lookup n st2.usage_stats).getD 0

theorem lookup_upsert_self (k : String) (v : β) :
    ∀ (l : List (String × β)), List.lookup k (upsert k v l) = some v := by
  intro l
  induction l with
  | nil => simp [upsert, List.lookup]
  | cons kv rest ih =>
    rw [upsert]
    by_cases h : kv.1 = k
    · rw [if_pos h]
      simp [List.lookup]
    · rw [if_neg h]
      rw [List.lookup]
      have : (k == kv.1) = false := by
        rw [beq_eq_false_iff_ne]
        exact fun he => h he.symm
      rw [this]
      exact ih

theorem lookup_upsert_other (k n : String) (v : β) (hne : ¬(n = k)) :
    ∀ (l : List (String × β)), List.lookup n (upsert k v l) = List.lookup n l := by
  intro l
  induction l with
  | nil =>
    simp only [upsert, List.lookup]
    rw [show (n == k) = false from beq_eq_false_iff_ne.mpr hne]
  | cons kv rest ih =>
    rw [upsert]
    by_cases h : kv.1 = k
    · rw [if_pos h]
      rw [List.lookup, List.lookup]
      rw [show (n == k) = false from beq_eq_false_iff_ne.mpr hne]
      rw [show (n == kv.1) = false from beq_eq_false_iff_ne.mpr (by rw [h]; exact hne)]
    · rw [if_neg h]
      rw [List.lookup, List.lookup]
      by_cases h2 : n = kv.1
      · rw [show (n == kv.1) = true from beq_iff_eq.mpr h2]
      · rw [show (n == kv.1) = false from beq_eq_false_iff_ne.mpr h2]
        exact ih

theorem lookup_eraseKey_other (k n : String) (hne : ¬(n = k)) :
    ∀ (l : List (String × β)), List.lookup n (eraseKey k l) = List.lookup n l := by
  intro l
  induction l with
  | nil => rfl
  | cons kv rest ih =>
    rw [eraseKey, List.filter]
    by_cases h : kv.1 = k
    · rw [show (!(kv.1 = k : Bool)) = false by simp [h]]
      rw [List.lookup]
      rw [show (n == kv.1) = false from beq_eq_false_iff_ne.mpr (by rw [h]; exact hne)]
      exact ih
    · rw [show (!(kv.1 = k : Bool)) = true by simp [h]]
      rw [List.lookup, List.lookup]
      by_cases h2 : n = kv.1
      · rw [show (n == kv.1) = true from beq_iff_eq.mpr h2]
      · rw [show (n == kv.1) = false from beq_eq_false_iff_ne.mpr h2]
        exact ih

theorem mem_insertName (n m : String) (l : List String) (h : n ∈ insertName m l) :
    n = m ∨ n ∈ l := by
  rw [insertName] at h
  by_cases hm : m ∈ l
  · rw [if_pos hm] at h
    exact Or.inr h
  · rw [if_neg hm] at h
    rcases List.mem_append.mp h with h1 | h1
    · exact Or.inr h1
    · exact Or.inl (by simpa using h1)

theorem load_single_inv (fs : TemplateFS) (name : String) (st : PromptsManager)
    (hinv : StoreInv st) :
    StoreInv (load_single_template fs name st).1 ∧
      (load_single_template fs name st).1.usage_stats = st.usage_stats ∧
      (load_single_template fs name st).1.enable_lazy_load = st.enable_lazy_load := by
  rw [load_single_template]
  cases htxt : List.lookup name fs.texts with
  | none => exact ⟨hinv, rfl, rfl⟩
  | some content =>
    have htmpl : ∀ n, n = name ∨ n ∈ st.loaded_templates →
        (List.lookup n (upsert name (pyStrip content) st.templates)).isSome = true := by
      intro n hn
      by_cases he : n = name
      · rw [he, lookup_upsert_self]
        rfl
      · rw [lookup_upsert_other name n _ he]
        exact hinv n (hn.resolve_left he)
    cases hm : List.lookup name fs.metas with
    | none =>
      refine ⟨?_, rfl, rfl⟩
      intro n hn
      exact htmpl n (mem_insertName n name _ hn)
    | some r =>
      cases r with
      | ok m =>
        refine ⟨?_, rfl, rfl⟩
        intro n hn
        exact htmpl n (mem_insertName n name _ hn)
      | error e =>
        refine ⟨?_, rfl, rfl⟩
        intro n hn
        exact htmpl n (Or.inr hn)

theorem load_foldl_inv (fs : TemplateFS) :
    ∀ (names : List String) (st : PromptsManager), StoreInv st →
    StoreInv (names.foldl (fun s n => (load_single_template fs n s).1) st) ∧
      (names.foldl (fun s n => (load_single_template fs n s).1) st).usage_stats =
        st.usage_stats := by
  intro names
  induction names with
  | nil => intro st hinv; exact ⟨hinv, rfl⟩
  | cons n rest ih =>
    intro st hinv
    obtain ⟨h1, h2, _⟩ := load_single_inv fs n st hinv
    obtain ⟨h3, h4⟩ := ih (load_single_template fs n st).1 h1
    refine ⟨h3, ?_⟩
    rw [List.foldl_cons] at *
    rw [h4, h2]

theorem usageLe_refl (st : PromptsManager) : usageLe st st := fun _ => le_refl _

theorem usageLe_of_eq (st st2 : PromptsManager)
    (h : st2.usage_stats = st.usage_stats) : usageLe st st2 := by
  intro n
  rw [h]

theorem get_template_finish_inv (name : String) (st1 : PromptsManager)
    (hinv : StoreInv st1) :
    StoreInv (get_template_finish name st1).1 ∧ usageLe st1 (get_template_finish name st1).1 ∧
      (∀ st2 t, get_template_finish name st1 = (st2, .ok t) →
        (List.lookup name st2.usage_stats).getD 0 =
          (List.lookup name st1.usage_stats).getD 0 + 1) := by
  cases hlk : List.lookup name st1.templates with
  | none =>
    have he : get_template_finish name st1 = (st1, .error .unknownTemplate) := by
      rw [get_template_finish, hlk]
    rw [he]
    exact ⟨hinv, usageLe_refl st1, by intro st2 t h; cases h⟩
  | some t =>
    have he : get_template_finish name st1 = (bump_usage name st1, .ok t) := by
      rw [get_template_finish, hlk]
    rw [he]
    refine ⟨hinv, ?_, ?_⟩
    · intro n
      show (List.lookup n st1.usage_stats).getD 0 ≤
        (List.lookup n (upsert name ((List.lookup name st1.usage_stats).getD 0 + 1)
          st1.usage_stats)).getD 0
      by_cases hn : n = name
      · rw [hn, lookup_upsert_self]
        simp
      · rw [lookup_upsert_other name n _ hn]
    · intro st2 t2 h
      injection h with h1 h2
      subst h1
      show (List.lookup name (upsert name ((List.lookup name st1.usage_stats).getD 0 + 1)
        st1.usage_stats)).getD 0 = _
      rw [lookup_upsert_self]
      rfl

theorem usageLe_trans (a b c : PromptsManager) (h1 : usageLe a b) (h2 : usageLe b c) :
    usageLe a c := fun n => le_trans (h1 n) (h2 n)

theorem get_template_inv (fs : TemplateFS) (name : String) (st : PromptsManager)
    (hinv : StoreInv st) :
    StoreInv (get_template fs name st).1 ∧ usageLe st (get_template fs name st).1 ∧
      (∀ st2 t, get_template fs name st = (st2, .ok t) →
        0 < (List.lookup name st2.usage_stats).getD 0) := by
  by_cases hlazy : st.enable_lazy_load ∧ (List.lookup name st.templates).isNone
  · obtain ⟨hinv1, husage1, _⟩ := load_single_inv fs name st hinv
    cases hload : load_single_template fs name st with
    | mk st1 r =>
      rw [hload] at hinv1 husage1
      cases r with
      | error e =>
        have he : get_template fs name st = (st1, .error e) := by
          rw [get_template, if_pos hlazy, hload]
        rw [he]
        exact ⟨hinv1, usageLe_of_eq st st1 husage1, by intro st2 t h; cases h⟩
      | ok u =>
        have he : get_template fs name st = get_template_finish name st1 := by
          rw [get_template, if_pos hlazy, hload]
        rw [he]
        obtain ⟨h1, h2, h3⟩ := get_template_finish_inv name st1 hinv1
        refine ⟨h1, usageLe_trans st st1 _ (usageLe_of_eq st st1 husage1) h2, ?_⟩
        intro st2 t h
        rw [h3 st2 t h]
        simp
  · have he : get_template fs name st = get_template_finish name st := by
      rw [get_template, if_neg hlazy]
    rw [he]
    obtain ⟨h1, h2, h3⟩ := get_template_finish_inv name st hinv
    refine ⟨h1, h2, ?_⟩
    intro st2 t h
    rw [h3 st2 t h]
    simp

theorem load_single_usage (fs : TemplateFS) (name : String) (st : PromptsManager) :
    (load_single_template fs name st).1.usage_stats = st.usage_stats := by
  rw [load_single_template]
  cases htxt : List.lookup name fs.texts with
  | none => rfl
  | some content =>
    cases hm : List.lookup name fs.metas with
    | none => rfl
    | some r =>
      cases r with
      | ok m => rfl
      | error e => rfl

theorem get_template_bump (fs : TemplateFS) (name : String) (st st2 : PromptsManager)
    (t : String) (h : get_template fs name st = (st2, Except.ok t)) :
    (List.lookup name st2.usage_stats).getD 0 =
      (List.lookup name st.usage_stats).getD 0 + 1 := by
  by_cases hlazy : st.enable_lazy_load ∧ (List.lookup name st.templates).isNone
  · cases hload : load_single_template fs name st with
    | mk st1 r =>
      have husage1 : st1.usage_stats = st.usage_stats := by
        have hu := load_single_usage fs name st
        rw [hload] at hu
        exact hu
      cases r with
      | error e =>
        have he : get_template fs name st = (st1, Except.error e) := by
          rw [get_template, if_pos hlazy, hload]
        rw [he] at h
        cases h
      | ok u =>
        have he : get_template fs name st = get_template_finish name st1 := by
          rw [get_template, if_pos hlazy, hload]
        rw [he] at h
        cases hlk : List.lookup name st1.templates with
        | none =>
          rw [get_template_finish, hlk] at h
          cases h
        | some t3 =>
          rw [get_template_finish, hlk] at h
          injection h with h1 h2
          subst h1
          show (List.lookup name (upsert name ((List.lookup name st1.usage_stats).getD 0 + 1)
            st1.usage_stats)).getD 0 = _
          rw [lookup_upsert_self]
          show (List.lookup name st1.usage_stats).getD 0 + 1 = _
          rw [husage1]
  · have he : get_template fs name st = get_template_finish name st := by
      rw [get_template, if_neg hlazy]
    rw [he] at h
    cases hlk : List.lookup name st.templates with
    | none =>
      rw [get_template_finish, hlk] at h
      cases h
    | some t3 =>
      rw [get_template_finish, hlk] at h
      injection h with h1 h2
      subst h1
      show (List.lookup name (upsert name ((List.lookup name st.usage_stats).getD 0 + 1)
        st.usage_stats)).getD 0 = _
      rw [lookup_upsert_self]
      rfl

theorem format_stage_state (tpl : String) (m : List (String × String))
    (st1 : PromptsManager) : (format_stage tpl m st1).1 = st1 := by
  rw [format_stage]
  cases format_template tpl m with
  | ok s => rfl
  | error err =>
    cases err with
    | missingParameter k req => rfl
    | formatFailure => rfl

theorem get_template_with_params_state (fs : TemplateFS) (name : String)
    (m : List (String × String)) (st : PromptsManager) :
    (get_template_with_params fs name m st).1 = (get_template fs name st).1 := by
  cases hg : get_template fs name st with
  | mk st1 r =>
    cases r with
    | error e =>
      have he : get_template_with_params fs name m st = (st1, Except.error e) := by
        rw [get_template_with_params, hg]
      rw [he]
    | ok tpl =>
      have he : get_template_with_params fs name m st = format_stage tpl m st1 := by
        rw [get_template_with_params, hg]
      rw [he, format_stage_state]

theorem get_template_with_params_inv (fs : TemplateFS) (name : String)
    (m : List (String × String)) (st : PromptsManager) (hinv : StoreInv st) :
    StoreInv (get_template_with_params fs name m st).1 ∧
      usageLe st (get_template_with_params fs name m st).1 := by
  obtain ⟨h1, h2, _⟩ := get_template_inv fs name st hinv
  rw [get_template_with_params_state]
  exact ⟨h1, h2⟩

theorem reload_one_inv (fs : TemplateFS) (name : String) (st : PromptsManager)
    (hinv : StoreInv st) :
    StoreInv (reload_one fs name st) ∧
      (reload_one fs name st).usage_stats = st.usage_stats := by
  by_cases h : (List.lookup name st.templates).isSome
  · have he : reload_one fs name st = (load_single_template fs name (purge name st)).1 := by
      rw [reload_one, if_pos h]
    have hmid : StoreInv (purge name st) := by
      intro n hn
      have hn2 : n ∈ st.loaded_templates.filter (fun x => !(x = name)) := hn
      have hmem := List.mem_filter.mp hn2
      have hne : ¬(n = name) := by simpa using hmem.2
      show (List.lookup n (eraseKey name st.templates)).isSome = true
      rw [lookup_eraseKey_other name n hne]
      exact hinv n hmem.1
    obtain ⟨h1, h2, _⟩ := load_single_inv fs name _ hmid
    rw [he]
    exact ⟨h1, h2⟩
  · have he : reload_one fs name st = (load_single_template fs name st).1 := by
      rw [reload_one, if_neg h]
    obtain ⟨h1, h2, _⟩ := load_single_inv fs name st hinv
    rw [he]
    exact ⟨h1, h2⟩

theorem reload_all_inv (fs : TemplateFS) (st : PromptsManager) :
    StoreInv (reload_all fs st) ∧ (reload_all fs st).usage_stats = st.usage_stats := by
  have hcl : StoreInv (clear_maps st) := by
    intro n hn
    have hn2 : n ∈ ([] : List String) := hn
    cases hn2
  by_cases h : st.enable_lazy_load
  · have he : reload_all fs st = (st.templates.map Prod.fst).foldl
        (fun s n => (load_single_template fs n s).1) (clear_maps st) := by
      rw [reload_all, if_pos h]
    obtain ⟨h1, h2⟩ := load_foldl_inv fs (st.templates.map Prod.fst) _ hcl
    rw [he]
    exact ⟨h1, h2⟩
  · have he : reload_all fs st = load_all_templates fs (clear_maps st) := by
      rw [reload_all, if_neg h]
    obtain ⟨h1, h2⟩ := load_foldl_inv fs (fs.texts.map Prod.fst) _ hcl
    rw [he, load_all_templates]
    exact ⟨h1, h2⟩

theorem load_all_inv (fs : TemplateFS) (st : PromptsManager) (hinv : StoreInv st) :
    StoreInv (load_all_templates fs st) ∧
      (load_all_templates fs st).usage_stats = st.usage_stats := by
  rw [load_all_templates]
  exact load_foldl_inv fs (fs.texts.map Prod.fst) st hinv

theorem create_template_inv (fs : TemplateFS) (name content : String)
    (metadata : Option String) (st : PromptsManager) (hinv : StoreInv st) :
    StoreInv (create_template fs name content metadata st).2.1 ∧
      (create_template fs name content metadata st).2.1.usage_stats = st.usage_stats := by
  by_cases h : st.enable_lazy_load
  · have he : create_template fs name content metadata st =
        (create_fs fs name content metadata, st, true) := by
      rw [create_template, if_pos h]
    rw [he]
    exact ⟨hinv, rfl⟩
  · cases hload : load_single_template (create_fs fs name content metadata) name st with
    | mk st1 r =>
      have hli := load_single_inv (create_fs fs name content metadata) name st hinv
      rw [hload] at hli
      obtain ⟨h1, h2, _⟩ := hli
      cases r with
      | ok u =>
        have he : create_template fs name content metadata st =
            (create_fs fs name content metadata, st1, true) := by
          rw [create_template, if_neg h, hload]
        rw [he]
        exact ⟨h1, h2⟩
      | error e =>
        have he : create_template fs name content metadata st =
            (create_fs fs name content metadata, st1, false) := by
          rw [create_template, if_neg h, hload]
        rw [he]
        exact ⟨h1, h2⟩

theorem init_manager_inv (fs : TemplateFS) (lazy : Bool) :
    StoreInv (init_manager fs lazy) := by
  cases lazy with
  | true =>
    have he : init_manager fs true = ⟨true, [], [], [], []⟩ := rfl
    rw [he]
    intro n hn
    cases hn
  | false =>
    have hempty : StoreInv ⟨false, [], [], [], []⟩ := by
      intro n hn
      cases hn
    have he : init_manager fs false =
        load_all_templates fs ⟨false, [], [], [], []⟩ := rfl
    rw [he, load_all_templates]
    exact (load_foldl_inv fs (fs.texts.map Prod.fst) _ hempty).1

/-- C9: every template-store operation (`get_template`,
`get_template_with_params`, `reload_templates` of one name or of all,
`create_template`, the two list operations, and the loading routines
themselves) preserves the invariant that each name in `loaded_templates` has
an entry in `templates`, and that usage counts are non-negative and
monotonically non-decreasing; a fresh manager satisfies the invariant, and a
successful `get_template` fetch increments the fetched name's count by exactly
one (counts are only reset by constructing a new store object). -/
theorem store_invariant_preservation (fs : TemplateFS) (name content : String)
    (metadata : Option String) (m : List (String × String)) (lazy : Bool)
    (st : PromptsManager) (hinv : StoreInv st) :
    StoreInv (init_manager fs lazy) ∧
    (∀ n, 0 ≤ (List.lookup n st.usage_stats).getD 0) ∧
    (StoreInv (load_single_template fs name st).1 ∧
      usageLe st (load_single_template fs name st).1) ∧
    (StoreInv (get_template fs name st).1 ∧ usageLe st (get_template fs name st).1 ∧
      ∀ st2 t, get_template fs name st = (st2, Except.ok t) →
        (List.lookup name st2.usage_stats).getD 0 =
          (List.lookup name st.usage_stats).getD 0 + 1) ∧
    (StoreInv (get_template_with_params fs name m st).1 ∧
      usageLe st (get_template_with_params fs name m st).1) ∧
    (StoreInv (reload_one fs name st) ∧ usageLe st (reload_one fs name st)) ∧
    (StoreInv (reload_all fs st) ∧ usageLe st (reload_all fs st)) ∧
    (StoreInv (load_all_templates fs st) ∧ usageLe st (load_all_templates fs st)) ∧
    (StoreInv (create_template fs name content metadata st).2.1 ∧
      usageLe st (create_template fs name content metadata st).2.1) ∧
    (StoreInv (list_available_templates fs st).2 ∧
      usageLe st (list_available_templates fs st).2) ∧
    (StoreInv (list_loaded_templates st).2 ∧ usageLe st (list_loaded_templates st).2) := by
  refine ⟨init_manager_inv fs lazy, fun n => Nat.zero_le _, ?_, ?_, ?_, ?_, ?_, ?_, ?_,
    ⟨hinv, usageLe_refl st⟩, ⟨hinv, usageLe_refl st⟩⟩
  · obtain ⟨h1, h2, _⟩ := load_single_inv fs name st hinv
    exact ⟨h1, usageLe_of_eq st _ h2⟩
  · obtain ⟨h1, h2, _⟩ := get_template_inv fs name st hinv
    exact ⟨h1, h2, fun st2 t h => get_template_bump fs name st st2 t h⟩
  · exact get_template_with_params_inv fs name m st hinv
  · obtain ⟨h1, h2⟩ := reload_one_inv fs name st hinv
    exact ⟨h1, usageLe_of_eq st _ h2⟩
  · obtain ⟨h1, h2⟩ := reload_all_inv fs st
    exact ⟨h1, usageLe_of_eq st _ h2⟩
  · obtain ⟨h1, h2⟩ := load_all_inv fs st hinv
    exact ⟨h1, usageLe_of_eq st _ h2⟩
  · obtain ⟨h1, h2⟩ := create_template_inv fs name content metadata st hinv
    exact ⟨h1, usageLe_of_eq st _ h2⟩

theorem store_invariant_preservation_witness :
    StoreInv (init_manager ⟨[(("a" : String), ("hello" : String))], []⟩ true) ∧
    StoreInv (get_template ⟨[(("a" : String), ("hello" : String))], []⟩ ("a")
      (⟨true, [], [], [], []⟩ : PromptsManager)).1 :=
  ⟨(store_invariant_preservation ⟨[(("a" : String), ("hello" : String))], []⟩ ("a") ("c")
      none [] true ⟨true, [], [], [], []⟩ (fun _ hn => nomatch hn)).1,
   (store_invariant_preservation ⟨[(("a" : String), ("hello" : String))], []⟩ ("a") ("c")
      none [] true ⟨true, [], [], [], []⟩ (fun _ hn => nomatch hn)).2.2.2.1.1⟩
